import Mathlib

/-!
# Verification of the agentsync reconciliation engine

This file gives a shallow embedding, over lists of characters, of the core of
the agentsync repository (`src/agentsync`): the Codex TOML generator and its
marker-delimited merge (`adapters/codex.py`), the three-tier server loading
(`adapters/claude.py`), case-insensitive deduplication (`utils/dedup.py`),
markdown section filtering (`utils/markdown.py`), the consistency validator
(`validate.py`), and the sync orchestrator (`sync.py`).  Python strings are
modelled as `List Char`, Python dicts as ordered association lists (Python
dicts preserve insertion order), exceptions as `Except`/`Option`, and the
mutable logger as explicitly threaded message lists.
-/

set_option maxHeartbeats 1000000
set_option maxRecDepth 100000

namespace AgentSync

/-- Program text is modelled as a list of characters. -/
abbrev Str := List Char

/-! ## First-occurrence substring search

`splitFirst pat s` returns `some (pre, post)` where `s = pre ++ pat ++ post`
and `pre` is the shortest such prefix (i.e. the match is the leftmost
occurrence of `pat`), or `none` when `pat` does not occur in `s`.  This is the
basic building block used to model Python's `in` substring test, `re.sub`
scanning and `re.findall` scanning. -/

def splitFirst (pat : Str) : Str → Option (Str × Str)
  | [] => if pat.isPrefixOf ([] : Str) then some ([], []) else none
  | c :: rest =>
    if pat.isPrefixOf (c :: rest) then some ([], (c :: rest).drop pat.length)
    else (splitFirst pat rest).map (fun pq => (c :: pq.1, pq.2))

/-- Boolean substring containment, modelling Python's `pat in s`. -/
def containsSub (pat s : Str) : Bool := (splitFirst pat s).isSome

/-! ## The Codex TOML generator (`adapters/codex.py`)

`MARKER_START`/`MARKER_END` are the sentinel lines; `TomlVal` models the JSON
values that can appear in a server configuration (`_toml_value` also accepts
floats, which are not modelled here; no claim involves them), `tomlValue`
models `_toml_value`, `serverToToml` models `_server_to_toml` and
`generateMcp` models `CodexTargetAdapter.generate_mcp`. -/

def MARKER_START : Str := "# === AGENTSYNC START ===".data

def MARKER_END : Str := "# === AGENTSYNC END ===".data

/-- A JSON value as it may appear in an MCP server configuration. -/
inductive TomlVal where
  | str (s : Str)
  | int (n : Int)
  | bool (b : Bool)
  | arr (items : List TomlVal)
  | table (pairs : List (Str × TomlVal))

/-- `s.replace(target, rep)` for a single-character needle. -/
def replaceChar (target : Char) (rep : Str) (s : Str) : Str :=
  s.flatMap (fun c => if c = target then rep else [c])

/-- `val.replace("\\", "\\\\").replace(chr(34), ...)` from `_toml_value`:
escape backslashes first, then double quotes. -/
def escToml (s : Str) : Str :=
  replaceChar '"' ['\\', '"'] (replaceChar '\\' ['\\', '\\'] s)

/-- `sep.join(parts)`. -/
def joinSep (sep : Str) : List Str → Str
  | [] => []
  | [x] => x
  | x :: rest => x ++ sep ++ joinSep sep rest

mutual

/-- `_toml_value`: serialize one value to a TOML literal (`tomlValueList` and
`tomlPairList` render the elementwise maps of the list and inline-table
cases). -/
def tomlValue : TomlVal → Str
  | .bool b => if b then "true".data else "false".data
  | .int n => (toString n).data
  | .str s => '"' :: (escToml s ++ ['"'])
  | .arr items => '[' :: (joinSep ", ".data (tomlValueList items) ++ [']'])
  | .table pairs => '{' :: (joinSep ", ".data (tomlPairList pairs) ++ ['}'])

def tomlValueList : List TomlVal → List Str
  | [] => []
  | v :: rest => tomlValue v :: tomlValueList rest

def tomlPairList : List (Str × TomlVal) → List Str
  | [] => []
  | (k, v) :: rest => (k ++ " = ".data ++ tomlValue v) :: tomlPairList rest

end

/-- `name.replace("-", "_")` from `_server_to_toml`. -/
def sanitizeName (name : Str) : Str := replaceChar '-' ['_'] name

/-- The key/value lines of one server's TOML table. -/
def serverLines (config : List (Str × TomlVal)) : List Str :=
  config.map (fun kv => kv.1 ++ " = ".data ++ tomlValue kv.2)

/-- `_server_to_toml`: header line plus key/value lines, newline-joined,
with a trailing newline. -/
def serverToToml (name : Str) (config : List (Str × TomlVal)) : Str :=
  joinSep ['\n']
    (("[mcp_servers.".data ++ sanitizeName name ++ "]".data) :: serverLines config)
  ++ ['\n']

/-- An MCP server definition (`adapters/base.py`, `ServerConfig`). -/
structure ServerConfig where
  name : Str
  config : List (Str × TomlVal)

/-- `ServerConfig.is_stdio`: the configuration carries a `command` key. -/
def ServerConfig.is_stdio (sc : ServerConfig) : Bool :=
  (sc.config.lookup "command".data).isSome

/-- `ServerConfig.is_http`: the configuration carries a `url` key. -/
def ServerConfig.is_http (sc : ServerConfig) : Bool :=
  (sc.config.lookup "url".data).isSome

/-- The newline-joined sequence of per-server TOML blocks (the `inner`
variable of `generate_mcp`). -/
def innerToml (servers : List (Str × ServerConfig)) : Str :=
  joinSep ['\n'] (servers.map (fun kv => serverToToml kv.1 kv.2.config))

/-- `CodexTargetAdapter.generate_mcp`: one TOML block per server, newline
joined, wrapped in the sentinel markers. -/
def generateMcp (servers : List (Str × ServerConfig)) : Str :=
  MARKER_START ++ '\n' :: (innerToml servers ++ '\n' :: (MARKER_END ++ ['\n']))

/-! ## The marker-delimited merge (`CodexTargetAdapter._merge_toml`)

`_merge_toml` uses `re.sub(re.escape(START) + ".*?" + re.escape(END) + "\n?",
managed_block, existing, flags=re.DOTALL)`.  Two aspects of `re.sub` matter
and are modelled faithfully: it replaces **all** non-overlapping leftmost
shortest matches, and the replacement string is a **template** whose
backslash escapes are processed (`processRepl`); an invalid template escape
raises `re.error`, modelled as `none`. -/

/-- Template-escape processing of a `re.sub` replacement string: `\\` becomes
one backslash, the letter escapes and `\0` become control characters, other
escaped letters, digits and a trailing backslash are errors (`none`), and an
escaped punctuation character is kept verbatim. -/
def processRepl : Str → Option Str
  | [] => some []
  | c :: rest =>
    if c = '\\' then
      match rest with
      | [] => none
      | c2 :: rest2 =>
        if c2 = '\\' then (processRepl rest2).map (fun t => '\\' :: t)
        else if c2 = 'n' then (processRepl rest2).map (fun t => '\n' :: t)
        else if c2 = 'r' then (processRepl rest2).map (fun t => '\r' :: t)
        else if c2 = 't' then (processRepl rest2).map (fun t => '\t' :: t)
        else if c2 = 'a' then (processRepl rest2).map (fun t => Char.ofNat 7 :: t)
        else if c2 = 'b' then (processRepl rest2).map (fun t => Char.ofNat 8 :: t)
        else if c2 = 'f' then (processRepl rest2).map (fun t => Char.ofNat 12 :: t)
        else if c2 = 'v' then (processRepl rest2).map (fun t => Char.ofNat 11 :: t)
        else if c2 = '0' then (processRepl rest2).map (fun t => Char.ofNat 0 :: t)
        else if c2.isAlpha ∨ c2.isDigit then none
        else (processRepl rest2).map (fun t => '\\' :: c2 :: t)
    else (processRepl rest).map (fun t => c :: t)

/-- One pass of `re.sub` over the pattern `START.*?END\n?` (DOTALL, lazy):
repeatedly find the leftmost occurrence of `MARKER_START`, the first
`MARKER_END` after it, extend the match over one following newline if
present, splice in the (already escape-processed) replacement, and continue
after the match.  `fuel` bounds the iteration; every match consumes at least
one character, so `s.length` is always enough fuel. -/
def stripLeadingNl : Str → Str
  | [] => []
  | c :: t => if c = '\n' then t else c :: t

def reSubAux (repl : Str) : Nat → Str → Str
  | 0, s => s
  | fuel + 1, s =>
    match splitFirst MARKER_START s with
    | none => s
    | some (pre, rest1) =>
      match splitFirst MARKER_END rest1 with
      | none => s
      | some (_, rest2) =>
        pre ++ repl ++ reSubAux repl fuel (stripLeadingNl rest2)

/-- `re.sub` of `START.*?END\n?` by the template `repl` in `s`. -/
def reSub (repl s : Str) : Str := reSubAux repl s.length s

/-- `s.endswith(chr(10))`. -/
def endsWithNewline (s : Str) : Bool := s.getLast? == some '\n'

/-- `CodexTargetAdapter._merge_toml`, on contents: `existing = none` models a
missing file.  The result is `none` exactly when `re.sub` would raise on the
replacement template. -/
def mergeToml : Option Str → Str → Option Str
  | none, managedBlock => some managedBlock
  | some ex, managedBlock =>
    if containsSub MARKER_START ex ∧ containsSub MARKER_END ex then
      (processRepl managedBlock).map (fun r => reSub r ex)
    else
      some (ex ++ (if endsWithNewline ex then [] else ['\n']) ++ '\n' :: managedBlock)

/-! ## Server-name extraction (`_extract_server_names`)

`re.findall(..., content)` over the pattern "[mcp_servers." + `(.+?)` + "]":
for each leftmost match, the capture is the shortest non-empty run of
non-newline characters after the literal prefix that is followed by a
closing bracket.  `extractServerNames` returns the captures in match order;
the Python function wraps them in a `set`, so theorems compare the result as
a set. -/

def CAPTURE_PFX : Str := "[mcp_servers.".data

/-- Scan for the closing bracket; fail on a newline or end of input. -/
def captureGo : Str → Option (Str × Str)
  | [] => none
  | c :: rest =>
    if c = ']' then some ([], rest)
    else if c = '\n' then none
    else (captureGo rest).map (fun nr => (c :: nr.1, nr.2))

/-- The lazy group `(.+?)` followed by the closing bracket: at least one
non-newline character, then the scan for the closing bracket. -/
def capture : Str → Option (Str × Str)
  | [] => none
  | c :: rest =>
    if c = '\n' then none
    else (captureGo rest).map (fun nr => (c :: nr.1, nr.2))

def extractAux : Nat → Str → List Str
  | 0, _ => []
  | fuel + 1, s =>
    match splitFirst CAPTURE_PFX s with
    | none => []
    | some (_, rest) =>
      match capture rest with
      | some (name, rest2) => name :: extractAux fuel rest2
      | none => extractAux fuel rest

/-- `_extract_server_names` (as the ordered list of matches). -/
def extractServerNames (content : Str) : List Str :=
  extractAux content.length content

/-- A markdown section (`adapters/base.py` `Section`): header text, nesting
level (2 for major, 3 for minor) and the literal content span including the
header line. -/
structure Section where
  header : Str
  level : Nat
  content : Str
deriving DecidableEq

/-- `CodexTargetAdapter.generate_rules`: section contents joined by a blank
line, with a trailing newline when non-empty. -/
def generateRules (sections : List Section) : Str :=
  let text := joinSep "\n\n".data (sections.map (fun s => s.content))
  if text = [] then [] else text ++ ['\n']

/-! ## Markdown sections (`adapters/base.py` `Section`, `utils/markdown.py`) -/

/-- `filter_sections`, with the `skip_parent` flag made explicit.  A level-2
section in the exclusion set is dropped and sets the flag; a level-2 section
not in the set is kept and clears the flag (its own individual check is the
same test and necessarily passes); a level-3 section is dropped under the
flag; any remaining section is dropped exactly when its own header is in the
exclusion set. -/
def filterAux (excl : List Str) : Bool → List Section → List Section
  | _, [] => []
  | skip, s :: rest =>
    if s.level = 2 then
      if excl.contains s.header then filterAux excl true rest
      else s :: filterAux excl false rest
    else if skip && s.level == 3 then filterAux excl skip rest
    else if excl.contains s.header then filterAux excl skip rest
    else s :: filterAux excl skip rest

/-- `filter_sections(sections, exclude_set)`. -/
def filterSections (sections : List Section) (excl : List Str) : List Section :=
  filterAux excl false sections

/-- The value of the `skip_parent` flag after scanning a list of sections
(used to reason about `filterAux` on list concatenations). -/
def flagAfter (excl : List Str) (flag : Bool) (sections : List Section) : Bool :=
  sections.foldl (fun fl s => if s.level = 2 then excl.contains s.header else fl) flag

/-! ## Python-dict operations

Python dicts preserve insertion order; `d[k] = v` replaces the value in
place when the key is present and appends otherwise.  Dicts are modelled as
association lists whose keys are unique (`Nodup` hypotheses where needed). -/

def dictInsert {V : Type} (d : List (Str × V)) (k : Str) (v : V) : List (Str × V) :=
  if d.any (fun kv => kv.1 == k) then
    d.map (fun kv => if kv.1 == k then (kv.1, v) else kv)
  else d ++ [(k, v)]

/-- `d.update(e)`. -/
def dictUpdate {V : Type} (d e : List (Str × V)) : List (Str × V) :=
  e.foldl (fun acc kv => dictInsert acc kv.1 kv.2) d

/-- Python `str.lower()`, restricted to ASCII (identities in scope are
ASCII; `Char.toLower` lowers exactly the ASCII uppercase letters). -/
def strLower (s : Str) : Str := s.map Char.toLower

/-- Decimal rendering of a number, for message strings. -/
def natStr (n : Nat) : Str := (toString n).data

/-! ## Case-insensitive deduplication (`utils/dedup.py`)

The mutable `seen` dict and the logger are threaded explicitly:
`dedupServers` returns the deduplicated registry together with the list of
warning messages emitted. -/

/-- The state of the `dedup_servers` loop: the `seen` dict mapping the
lowercased key to `(original key, value)`, plus the warnings so far. -/
structure DedupState where
  seen : List (Str × (Str × ServerConfig))
  logs : List Str

/-- The warning text from `dedup_servers`. -/
def dedupMsg (prevKey key : Str) : Str :=
  "Dedup: '".data ++ prevKey ++ "' replaced by '".data ++ key
    ++ "' (case-insensitive merge)".data

/-- One iteration of the `dedup_servers` loop. -/
def dedupStep (st : DedupState) (kv : Str × ServerConfig) : DedupState :=
  let lower := strLower kv.1
  match st.seen.lookup lower with
  | some prev =>
    { seen := dictInsert st.seen lower (kv.1, kv.2)
      logs := if prev.1 ≠ kv.1 then st.logs ++ [dedupMsg prev.1 kv.1] else st.logs }
  | none => { seen := dictInsert st.seen lower (kv.1, kv.2), logs := st.logs }

/-- `dedup_servers`: all returned keys are lowercase; the later entry wins a
case-insensitive collision; collisions between distinct spellings are
logged. -/
def dedupServers (servers : List (Str × ServerConfig)) :
    List (Str × ServerConfig) × List Str :=
  let st := servers.foldl dedupStep ⟨[], []⟩
  (st.seen.map (fun e => (e.1, e.2.2)), st.logs)

/-! ## Three-tier server loading (`adapters/claude.py`)

`ClaudeSourceAdapter.load_servers`, with file reading factored out: the two
parsed JSON documents are inputs (`none` models a missing, unreadable or
non-object file, exactly `_read_json`'s `None`).  `TomlVal` doubles as the
JSON value model. -/

/-- `d.get(k, default)` on a parsed JSON object. -/
def jGet (d : List (Str × TomlVal)) (k : Str) (dflt : TomlVal) : TomlVal :=
  match d.lookup k with
  | some v => v
  | none => dflt

/-- `ClaudeSourceAdapter._extract_servers`: keep only object-valued entries,
in insertion order. -/
def extractServers (raw : List (Str × TomlVal)) : List (Str × ServerConfig) :=
  raw.filterMap (fun kv =>
    match kv.2 with
    | .table cfg => some (kv.1, ⟨kv.1, cfg⟩)
    | _ => none)

/-- Tier 1: top-level `mcpServers` of the global config. -/
def tier1 (globalData : Option (List (Str × TomlVal))) : List (Str × ServerConfig) :=
  match globalData with
  | none => []
  | some g =>
    match jGet g "mcpServers".data (.table []) with
    | .table top => extractServers top
    | _ => []

/-- Tier 2: `projects[config_dir].mcpServers` of the global config. -/
def tier2 (globalData : Option (List (Str × TomlVal))) (projectKey : Str) :
    List (Str × ServerConfig) :=
  match globalData with
  | none => []
  | some g =>
    match jGet g "projects".data (.table []) with
    | .table projects =>
      match jGet projects projectKey (.table []) with
      | .table projBlock =>
        match jGet projBlock "mcpServers".data (.table []) with
        | .table ps => extractServers ps
        | _ => []
      | _ => []
    | _ => []

/-- Tier 3: `mcpServers` of the local `.mcp.json`. -/
def tier3 (mcpData : Option (List (Str × TomlVal))) : List (Str × ServerConfig) :=
  match mcpData with
  | none => []
  | some m =>
    match jGet m "mcpServers".data (.table []) with
    | .table locals => extractServers locals
    | _ => []

/-- `ClaudeSourceAdapter.load_servers`: start from an empty dict and
`update` with the three tiers in ascending priority.  The code guards tier 2
behind a non-emptiness test (`and project_servers`); updating with an empty
dict is a no-op, so the guard is reproduced verbatim. -/
def loadServers (globalData : Option (List (Str × TomlVal))) (projectKey : Str)
    (mcpData : Option (List (Str × TomlVal))) : List (Str × ServerConfig) :=
  let merged : List (Str × ServerConfig) := []
  let merged := dictUpdate merged (tier1 globalData)
  let merged :=
    if (tier2 globalData projectKey).isEmpty then merged
    else dictUpdate merged (tier2 globalData projectKey)
  dictUpdate merged (tier3 mcpData)

/-! ## Per-target server filter (`SyncEngine._filter_servers`) -/

/-- A target's configuration (`config.py` `TargetConfig`), restricted to the
fields the engine core reads. -/
structure TargetCfg where
  exclude_servers : List Str
  protocols : List Str
  config_path : Option Str
  rules_path : Option Str

/-- The body of the `_filter_servers` loop, given the target's
configuration. -/
def filterServersFn (servers : List (Str × ServerConfig)) (tc : TargetCfg) :
    List (Str × ServerConfig) :=
  let exclude := tc.exclude_servers.map strLower
  let protocols := tc.protocols.map strLower
  servers.filter (fun kv =>
    if exclude.contains (strLower kv.1) then false
    else if protocols.isEmpty then true
    else (protocols.contains "stdio".data && kv.2.is_stdio)
      || (protocols.contains "http".data && kv.2.is_http))

/-- `SyncEngine._filter_servers`: an unconfigured target name leaves the
registry unfiltered. -/
def filterServers (targetsCfg : List (Str × TargetCfg))
    (servers : List (Str × ServerConfig)) (name : Str) :
    List (Str × ServerConfig) :=
  match targetsCfg.lookup name with
  | none => servers
  | some tc => filterServersFn servers tc

/-! ## The consistency validator (`validate.py`) -/

/-- `adapters/base.py` `ValidationResult`. -/
structure ValidationResult where
  name : Str
  passed : Bool
  message : Str
  severity : Str
deriving DecidableEq

/-- Lexicographic comparison of strings by character code (Python string
ordering, as used by `sorted`). -/
def strLe : Str → Str → Bool
  | [], _ => true
  | _ :: _, [] => false
  | x :: xs, y :: ys => if x = y then strLe xs ys else decide (x < y)

/-- Stable insertion of a string into a sorted list. -/
def insertSorted (x : Str) : List Str → List Str
  | [] => [x]
  | y :: ys => if strLe x y then x :: y :: ys else y :: insertSorted x ys

/-- `sorted(strs)` as a stable insertion sort (the inputs are sets, hence
duplicate-free, and any stable sort by the same order agrees with Python's
`sorted`). -/
def sortStrs (l : List Str) : List Str := l.foldr insertSorted []

/-- The `expected_names` set of `check_server_consistency`: expected
identities surviving the (case-insensitive) exclusion set and, when
`stdio_only`, the stdio restriction. -/
def expectedNamesOf (expected : List (Str × ServerConfig)) (exclude : List Str)
    (stdioOnly : Bool) : List Str :=
  (expected.filter (fun kv =>
    !(exclude.map strLower).contains (strLower kv.1)
      && !(stdioOnly && !kv.2.is_stdio))).map (fun kv => kv.1)

/-- `check_server_consistency`.  `expected` is a dict, `actual` a set
(modelled as a duplicate-free list); the message sorts the missing/extra
sets, so set-iteration order is immaterial. -/
def checkServerConsistency (expected : List (Str × ServerConfig)) (actual : List Str)
    (targetName : Str) (exclude : List Str) (stdioOnly : Bool) : ValidationResult :=
  let expectedNames := expectedNamesOf expected exclude stdioOnly
  let missing := expectedNames.filter (fun k => !actual.contains k)
  let extra := actual.filter (fun k => !expectedNames.contains k)
  let parts :=
    (if !missing.isEmpty then
      ["missing ".data ++ natStr missing.length ++ ": ".data
        ++ joinSep ", ".data (sortStrs missing)] else [])
    ++ (if !extra.isEmpty then
      ["extra ".data ++ natStr extra.length ++ ": ".data
        ++ joinSep ", ".data (sortStrs extra)] else [])
  if !missing.isEmpty then
    { name := targetName ++ " server consistency".data
      passed := false
      message := joinSep "; ".data parts
      severity := "error".data }
  else
    { name := targetName ++ " server consistency".data
      passed := true
      message := natStr actual.length ++ "/".data ++ natStr expectedNames.length
        ++ " expected servers present".data
        ++ (if !extra.isEmpty then
          " (".data ++ joinSep "; ".data parts ++ ")".data else [])
      severity := "info".data }

/-! ## The sync orchestrator (`sync.py`)

`SyncEngine.run` is modelled over an abstract per-target adapter: each
adapter carries a state type `σ` and fallible operations (`Except Str`
models a raised exception and its message).  The on-disk state is an
association list from path to content; a missing key is a missing file.
The logger and the backup collaborator are orthogonal to every claim and
are not threaded through the engine model. -/

/-- `adapters/base.py` `WriteResult`. -/
structure WriteResult where
  path : Str
  written : Bool
  bytes_written : Nat
  message : Str
deriving DecidableEq

/-- `sync.py` `TargetSyncResult`. -/
structure TargetSyncResult where
  target_name : Str
  success : Bool
  writes : List WriteResult
  errors : List Str
deriving DecidableEq

/-- `sync.py` `SyncResult`; `target_results` is an insertion-ordered dict. -/
structure SyncResult where
  success : Bool
  dry_run : Bool
  target_results : List (Str × TargetSyncResult)
deriving DecidableEq

/-- The filesystem: path to content, a missing key is a missing file. -/
abbrev FS := List (Str × Str)

/-- A target adapter as seen by the engine: internal state `σ` plus the
three operations the engine invokes inside its try/except block. -/
structure Adapter (σ : Type) where
  init : σ
  genMcp : List (Str × ServerConfig) → σ → Except Str σ
  genRules : List Section → σ → Except Str σ
  write : σ → Bool → FS → Except Str (List WriteResult × FS)

/-- The engine-relevant configuration: per-target configs and the rules
exclusion set. -/
structure EngineCfg where
  targetsCfg : List (Str × TargetCfg)
  exclude_sections : List Str

/-- UTF-8 byte length (`len(content.encode())`). -/
def utf8Len (s : Str) : Nat := s.foldl (fun n c => n + c.utf8Size) 0

/-- `utils/io.py` `_write`/`write_text`: in dry-run mode report what would
change without touching the filesystem, otherwise write and report the byte
count.  (The optional backup copy is a collaborator side effect outside
every claim and is not modelled.) -/
def writeTextM (path content : Str) (dryRun : Bool) (fs : FS) : WriteResult × FS :=
  let nbytes := utf8Len content
  if dryRun then
    let msg :=
      match fs.lookup path with
      | some existing =>
        if existing = content then path ++ ": no changes".data
        else path ++ ": WOULD UPDATE (".data ++ natStr nbytes ++ " bytes)".data
      | none => path ++ ": WOULD CREATE (".data ++ natStr nbytes ++ " bytes)".data
    ({ path := path, written := false, bytes_written := 0, message := msg }, fs)
  else
    ({ path := path, written := true, bytes_written := nbytes
       message := "Written: ".data ++ path ++ " (".data ++ natStr nbytes ++ " bytes)".data },
     dictInsert fs path content)

/-- `CodexTargetAdapter`'s mutable generation state (`_mcp_text`,
`_rules_text`), both `None` on construction. -/
structure AdapterState where
  mcpText : Option Str
  rulesText : Option Str

/-- `CodexTargetAdapter.write`: merge-write the MCP text when generated and
a config path is set, then write the rules text when generated and a rules
path is set.  A `none` from `mergeToml` is the `re.error` raised inside
`_merge_toml`, propagating out of `write`. -/
def codexWrite (tc : TargetCfg) (st : AdapterState) (dryRun : Bool) (fs : FS) :
    Except Str (List WriteResult × FS) := do
  let (results1, fs1) ←
    match st.mcpText, tc.config_path with
    | some txt, some path =>
      match mergeToml (fs.lookup path) txt with
      | some content =>
        let (r, fs2) := writeTextM path content dryRun fs
        Except.ok ([r], fs2)
      | none => Except.error "re.error: bad escape in replacement template".data
    | _, _ => Except.ok ([], fs)
  let (results2, fs2) ←
    match st.rulesText, tc.rules_path with
    | some txt, some path =>
      let (r, fs3) := writeTextM path txt dryRun fs1
      Except.ok ([r], fs3)
    | _, _ => Except.ok ([], fs1)
  Except.ok (results1 ++ results2, fs2)

/-- The Codex adapter, as the engine sees it. -/
def codexAdapter (tc : TargetCfg) : Adapter AdapterState where
  init := ⟨none, none⟩
  genMcp := fun servers st => Except.ok { st with mcpText := some (generateMcp servers) }
  genRules := fun secs st => Except.ok { st with rulesText := some (generateRules secs) }
  write := fun st dryRun fs => codexWrite tc st dryRun fs

/-- The body of the per-target `try` block in `SyncEngine.run`: filter and
generate MCP servers when present, filter and generate rules when present,
then write. -/
def targetComp {σ : Type} (cfg : EngineCfg) (servers : List (Str × ServerConfig))
    (sections : List Section) (mcpOnly rulesOnly dryRun : Bool)
    (name : Str) (ad : Adapter σ) (fs : FS) : Except Str (List WriteResult × FS) := do
  let st := ad.init
  let st ←
    if !rulesOnly && !servers.isEmpty then
      ad.genMcp (filterServers cfg.targetsCfg servers name) st
    else Except.ok st
  let st ←
    if !mcpOnly && !sections.isEmpty then
      ad.genRules (filterSections sections cfg.exclude_sections) st
    else Except.ok st
  ad.write st dryRun fs

/-- One iteration of the per-target loop: the `except` clause catches any
exception, records it against this target only, and leaves the filesystem
as it was. -/
def processTarget {σ : Type} (cfg : EngineCfg) (servers : List (Str × ServerConfig))
    (sections : List Section) (mcpOnly rulesOnly dryRun : Bool)
    (name : Str) (ad : Adapter σ) (fs : FS) : TargetSyncResult × FS :=
  match targetComp cfg servers sections mcpOnly rulesOnly dryRun name ad fs with
  | .ok (writes, fs2) =>
    ({ target_name := name, success := true, writes := writes, errors := [] }, fs2)
  | .error e =>
    ({ target_name := name, success := false, writes := [], errors := [e] }, fs)

/-- The per-target loop of `SyncEngine.run`, threading the filesystem. -/
def runLoop {σ : Type} (cfg : EngineCfg) (servers : List (Str × ServerConfig))
    (sections : List Section) (mcpOnly rulesOnly dryRun : Bool) :
    List (Str × Adapter σ) → FS → List (Str × TargetSyncResult) × FS
  | [], fs => ([], fs)
  | (name, ad) :: rest, fs =>
    let (tr, fs2) := processTarget cfg servers sections mcpOnly rulesOnly dryRun name ad fs
    let (rs, fs3) := runLoop cfg servers sections mcpOnly rulesOnly dryRun rest fs2
    ((name, tr) :: rs, fs3)

/-- `SyncEngine.run`: an unknown target filter fails the whole run before
any target is processed; otherwise servers are loaded and deduplicated
unless `rules_only`, sections are loaded unless `mcp_only`, each target is
processed in isolation, and the aggregate success is the conjunction of the
per-target successes.  `servers0`/`sections0` stand for the source
adapter's `load_servers()`/`load_rules()` results. -/
def runEngine {σ : Type} (cfg : EngineCfg) (targets : List (Str × Adapter σ))
    (servers0 : List (Str × ServerConfig)) (sections0 : List Section)
    (dryRun mcpOnly rulesOnly : Bool) (targetFilter : Option Str) (fs : FS) :
    SyncResult × FS :=
  let names := targets.map (fun t => t.1)
  match targetFilter with
  | some t =>
    if !names.contains t then
      ({ success := false, dry_run := dryRun, target_results := [] }, fs)
    else
      runBody cfg (targets.filter (fun tg => tg.1 == t)) servers0 sections0
        dryRun mcpOnly rulesOnly fs
  | none => runBody cfg targets servers0 sections0 dryRun mcpOnly rulesOnly fs
where
  /-- The run after target selection: dedup, section load, loop, aggregate. -/
  runBody (cfg : EngineCfg) (selected : List (Str × Adapter σ))
      (servers0 : List (Str × ServerConfig)) (sections0 : List Section)
      (dryRun mcpOnly rulesOnly : Bool) (fs : FS) : SyncResult × FS :=
    let servers := if rulesOnly then [] else (dedupServers servers0).1
    let sections := if mcpOnly then [] else sections0
    let (trs, fs2) := runLoop cfg servers sections mcpOnly rulesOnly dryRun selected fs
    ({ success := trs.all (fun tr => tr.2.success), dry_run := dryRun
       target_results := trs }, fs2)

/-! ## Proof-infrastructure definitions

Derived notions used to state and prove the theorems; they introduce no new
program behaviour. -/

/-- A pattern is border-free when no proper non-empty suffix of it is also a
prefix of it; both sentinel markers and the capture prefix are border-free,
which rules out occurrences straddling a known occurrence. -/
def borderFree (p : Str) : Prop :=
  ∀ k, k < p.length → 0 < k → ¬ (p.drop k <+: p)

/-- The tail of a server's TOML block after the closing bracket of its
header line (empty key/value list collapses the newline-join). -/
def bodyTail (config : List (Str × TomlVal)) : Str :=
  (match serverLines config with
   | [] => []
   | ls => '\n' :: joinSep ['\n'] ls) ++ ['\n']

/-- A sequence of capture segments: each pair `(n, b)` contributes the
capture prefix, the name, the closing bracket, and the following text. -/
def segs : List (Str × Str) → Str
  | [] => []
  | (n, b) :: rest => CAPTURE_PFX ++ n ++ ']' :: (b ++ segs rest)

/-- The capture segments of a generated MCP document: one per server, the
last one carrying the closing sentinel. -/
def pairsOf : List (Str × ServerConfig) → List (Str × Str)
  | [] => []
  | [kv] => [(sanitizeName kv.1, bodyTail kv.2.config ++ '\n' :: (MARKER_END ++ ['\n']))]
  | kv :: rest => (sanitizeName kv.1, bodyTail kv.2.config ++ ['\n']) :: pairsOf rest

/-- An engine configuration with no per-target settings. -/
def emptyCfg : EngineCfg := { targetsCfg := [], exclude_sections := [] }

/-- A stateless adapter whose write step raises, standing for any target
adapter that throws inside the per-target try block. -/
def raisingAdapter : Adapter Unit where
  init := ()
  genMcp := fun _ st => Except.ok st
  genRules := fun _ st => Except.ok st
  write := fun _ _ _ => Except.error "boom".data

/-- A stateless adapter whose every step succeeds and writes nothing. -/
def okAdapter : Adapter Unit where
  init := ()
  genMcp := fun _ st => Except.ok st
  genRules := fun _ st => Except.ok st
  write := fun _ _ fs => Except.ok ([], fs)

/-! # Lemmas on first-occurrence search -/

theorem sf_decomp {p s a b : Str} (h : splitFirst p s = some (a, b)) :
    s = a ++ p ++ b := by
  induction s generalizing a b with
  | nil =>
    unfold splitFirst at h
    split at h
    · rename_i hpre
      simp only [Option.some.injEq, Prod.mk.injEq] at h
      obtain ⟨ha, hb⟩ := h
      subst ha; subst hb
      have : p = [] := List.prefix_nil.mp ( List.isPrefixOf_iff_prefix.mp hpre)
      simp [this]
    · simp at h
  | cons c rest ih =>
    unfold splitFirst at h
    split at h
    · rename_i hpre
      simp only [Option.some.injEq, Prod.mk.injEq] at h
      obtain ⟨ha, hb⟩ := h
      subst ha; subst hb
      have := List.prefix_iff_eq_append.mp ( List.isPrefixOf_iff_prefix.mp hpre)
      simpa using this.symm
    · rename_i hpre
      rcases h2 : splitFirst p rest with _ | ⟨a0, b0⟩ <;> rw [h2] at h
      · simp at h
      · simp only [Option.map, Option.some.injEq, Prod.mk.injEq] at h
        obtain ⟨ha, hb⟩ := h
        subst ha; subst hb
        have := ih h2
        simp [this]

theorem sf_none_iff {p s : Str} : splitFirst p s = none ↔ ¬ p <:+: s := by
  induction s with
  | nil =>
    unfold splitFirst
    split
    · rename_i hpre
      have : p = [] := List.prefix_nil.mp ( List.isPrefixOf_iff_prefix.mp hpre)
      simp [this]
    · rename_i hpre
      have hp : p ≠ [] := by
        intro hc
        exact hpre ( List.isPrefixOf_iff_prefix.mpr (by simp [hc]))
      simp [List.infix_nil, hp]
  | cons c rest ih =>
    unfold splitFirst
    split
    · rename_i hpre
      have : p <+: c :: rest := List.isPrefixOf_iff_prefix.mp hpre
      simp [this.isInfix]
    · rename_i hpre
      have hnp : ¬ p <+: c :: rest := fun hc => hpre ( List.isPrefixOf_iff_prefix.mpr hc)
      rcases h2 : splitFirst p rest with _ | q
      · have hni : ¬ p <:+: rest := ih.mp h2
        simp only [Option.map, List.infix_cons_iff]
        constructor
        · intro _ hc
          rcases hc with h3 | h3
          · exact hnp h3
          · exact hni h3
        · intro _
          trivial
      · have hi : p <:+: rest := by
          by_contra hn
          rw [ih.mpr hn] at h2
          simp at h2
        simp only [Option.map, List.infix_cons_iff]
        constructor
        · intro hc
          simp at hc
        · intro hc
          exact absurd (Or.inr hi) hc

theorem containsSub_false_iff {p s : Str} : containsSub p s = false ↔ ¬ p <:+: s := by
  unfold containsSub
  rcases h : splitFirst p s with _ | q
  · simpa using sf_none_iff.mp h
  · have : p <:+: s := by
      by_contra hn
      rw [sf_none_iff.mpr hn] at h
      simp at h
    simpa using this

theorem containsSub_true_iff {p s : Str} : containsSub p s = true ↔ p <:+: s := by
  constructor
  · intro h
    by_contra hn
    rw [containsSub_false_iff.mpr hn] at h
    simp at h
  · intro h
    rcases hc : containsSub p s with _ | _
    · exact absurd h (containsSub_false_iff.mp hc)
    · rfl

theorem sf_min {p s a b : Str} (h : splitFirst p s = some (a, b)) :
    ∀ a2 b2, s = a2 ++ p ++ b2 → a.length ≤ a2.length := by
  induction s generalizing a b with
  | nil =>
    intro a2 b2 _
    unfold splitFirst at h
    split at h
    · simp only [Option.some.injEq, Prod.mk.injEq] at h
      obtain ⟨ha, _⟩ := h
      subst ha
      simp
    · simp at h
  | cons c rest ih =>
    intro a2 b2 hs
    unfold splitFirst at h
    split at h
    · simp only [Option.some.injEq, Prod.mk.injEq] at h
      obtain ⟨ha, _⟩ := h
      subst ha
      simp
    · rename_i hpre
      rcases h2 : splitFirst p rest with _ | ⟨a0, b0⟩ <;> rw [h2] at h
      · simp at h
      · simp only [Option.map, Option.some.injEq, Prod.mk.injEq] at h
        obtain ⟨ha, hb⟩ := h
        subst ha; subst hb
        match a2, hs with
        | [], hs =>
          exfalso
          refine hpre ( List.isPrefixOf_iff_prefix.mpr ?_)
          exact ⟨b2, by simpa using hs.symm⟩
        | c2 :: a2t, hs =>
          have hs2 : rest = a2t ++ p ++ b2 := by
            have := hs
            simp only [List.cons_append, List.cons.injEq, List.append_assoc] at this
            simpa [List.append_assoc] using this.2
          simpa using Nat.succ_le_succ (ih h2 a2t b2 hs2)

theorem sf_isSome {p s : Str} (h : p <:+: s) : ∃ a b, splitFirst p s = some (a, b) := by
  rcases hc : splitFirst p s with _ | ⟨a, b⟩
  · exact absurd h (sf_none_iff.mp hc)
  · exact ⟨a, b, rfl⟩

/-- When `p` is border-free and does not occur in `x`, the leftmost
occurrence of `p` in `x ++ p ++ y` is the explicit one. -/
theorem sf_exact {p x y : Str} (hb : borderFree p) (hx : ¬ p <:+: x) :
    splitFirst p (x ++ p ++ y) = some (x, y) := by
  obtain ⟨a, b, hab⟩ := sf_isSome (⟨x, y, rfl⟩ : p <:+: x ++ p ++ y)
  have hd := sf_decomp hab
  have hmin : a.length ≤ x.length := sf_min hab x y rfl
  have hax : a <+: x ++ p ++ y :=
    ⟨p ++ b, by rw [List.append_assoc]; simpa [List.append_assoc] using hd.symm⟩
  have heq : a.length = x.length := by
    rcases Nat.lt_or_ge a.length x.length with hlt | hge
    · exfalso
      have ha2 : a = x.take a.length := by
        have ha := List.prefix_iff_eq_take.mp hax
        rw [ha, List.append_assoc, List.take_append_eq_append_take]
        simp [Nat.sub_eq_zero_of_le (le_of_lt hlt)]
      have hxsplit : x = a ++ x.drop a.length := by
        conv_lhs => rw [← List.take_append_drop a.length x]
        rw [← ha2]
      have key : x.drop a.length ++ (p ++ y) = p ++ b := by
        have h1 := hd
        rw [hxsplit] at h1
        have h6 : a ++ (x.drop a.length ++ (p ++ y)) = a ++ (p ++ b) := by
          simpa [List.append_assoc] using h1
        exact List.append_cancel_left h6
      rcases le_or_lt p.length (x.length - a.length) with hle | hgt
      · have h1 : p <+: x.drop a.length ++ (p ++ y) := by
          rw [key]; exact List.prefix_append p b
        have h2 : p <+: x.drop a.length :=
          List.prefix_of_prefix_length_le h1 (List.prefix_append _ _)
            (by simp only [List.length_drop]; omega)
        exact hx (h2.isInfix.trans (List.drop_suffix _ _).isInfix)
      · have hk0 : 0 < x.length - a.length := by omega
        have hA : x.drop a.length <+: x.drop a.length ++ (p ++ y) :=
          List.prefix_append _ _
        have hB : p <+: x.drop a.length ++ (p ++ y) := by
          rw [key]; exact List.prefix_append p b
        have hxdp : x.drop a.length <+: p :=
          List.prefix_of_prefix_length_le hA hB
            (by simp only [List.length_drop]; omega)
        have hp2 : x.drop a.length ++ p.drop (x.length - a.length) = p := by
          have h3 := List.prefix_iff_eq_append.mp hxdp
          simpa [List.length_drop] using h3
        have key2 : p ++ y = p.drop (x.length - a.length) ++ b := by
          have h6 : x.drop a.length ++ (p ++ y)
              = x.drop a.length ++ (p.drop (x.length - a.length) ++ b) := by
            rw [key]
            conv_lhs => rw [← hp2]
            rw [List.append_assoc]
          exact List.append_cancel_left h6
        have hborder : p.drop (x.length - a.length) <+: p := by
          have h5 : p.drop (x.length - a.length) <+: p ++ y := by
            rw [key2]; exact List.prefix_append _ _
          exact List.prefix_of_prefix_length_le h5 (List.prefix_append _ _)
            (by simp [List.length_drop])
        exact hb (x.length - a.length) (by omega) hk0 hborder
    · omega
  have hax2 : a = x := by
    have hxx : x <+: x ++ p ++ y := by
      rw [List.append_assoc]; exact List.prefix_append _ _
    exact (List.prefix_of_prefix_length_le hax hxx (le_of_eq heq)).eq_of_length heq
  subst hax2
  have hby : y = b := by
    have h6 : (a ++ p) ++ y = (a ++ p) ++ b := by
      simpa [List.append_assoc] using hd
    exact List.append_cancel_left h6
  rw [hab, hby]

/-- A newline-free pattern occurring in `u ++ '\n' :: v` occurs entirely in
`u` or entirely in `v`. -/
theorem infix_split_newline {p u v : Str} (hn : '\n' ∉ p)
    (h : p <:+: u ++ '\n' :: v) : p <:+: u ∨ p <:+: v := by
  induction u with
  | nil =>
    rcases List.infix_cons_iff.mp (by simpa using h) with h1 | h1
    · match p, h1 with
      | [], _ => exact Or.inl (List.nil_infix)
      | c :: pt, h1 =>
        have hc : c = '\n' := by
          rcases h1 with ⟨t, ht⟩
          simpa using congrArg (fun l => l.head?) ht
        exact absurd (hc ▸ List.mem_cons_self c pt) hn
    · exact Or.inr h1
  | cons c u ih =>
    rcases List.infix_cons_iff.mp (by simpa using h) with h1 | h1
    · have h2 : p <+: (c :: u) ++ ('\n' :: v) := by simpa using h1
      rcases le_or_lt p.length (c :: u).length with hle | hgt
      · exact Or.inl
          (List.prefix_of_prefix_length_le h2 (List.prefix_append _ _) hle).isInfix
      · exfalso
        have hlt : (c :: u).length < p.length := by omega
        have hidx : p[(c :: u).length] = '\n' := by
          have h3 := h2.getElem (by omega : (c :: u).length < p.length)
          rw [h3, List.getElem_append_right (Nat.le_refl _)]
          simp
        exact hn (hidx ▸ List.getElem_mem _)
    · rcases ih h1 with h2 | h2
      · exact Or.inl (List.infix_cons h2)
      · exact Or.inr h2

/-- A non-empty newline-free pattern occurring in `u ++ ['\n']` occurs in
`u`. -/
theorem infix_concat_newline {p u : Str} (hn : '\n' ∉ p) (hp : p ≠ [])
    (h : p <:+: u ++ ['\n']) : p <:+: u := by
  rcases infix_split_newline hn
      (show p <:+: u ++ '\n' :: [] from by simpa using h) with h1 | h1
  · exact h1
  · exact absurd (List.infix_nil.mp h1) hp

/-- A non-empty newline-free pattern occurring in `'\n' :: v` occurs in
`v`. -/
theorem infix_cons_newline {p v : Str} (hn : '\n' ∉ p) (hp : p ≠ [])
    (h : p <:+: '\n' :: v) : p <:+: v := by
  rcases infix_split_newline hn
      (show p <:+: [] ++ '\n' :: v from by simpa using h) with h1 | h1
  · exact absurd (List.infix_nil.mp h1) hp
  · exact h1

/-! ## Concrete facts about the sentinel markers and the capture prefix -/

theorem bfStart : borderFree MARKER_START := by unfold borderFree MARKER_START; decide

theorem bfEnd : borderFree MARKER_END := by unfold borderFree MARKER_END; decide

theorem bfPfx : borderFree CAPTURE_PFX := by unfold borderFree CAPTURE_PFX; decide

theorem nlNotMemStart : '\n' ∉ MARKER_START := by unfold MARKER_START; decide

theorem nlNotMemEnd : '\n' ∉ MARKER_END := by unfold MARKER_END; decide

theorem nlNotMemPfx : '\n' ∉ CAPTURE_PFX := by unfold CAPTURE_PFX; decide

theorem startNe : MARKER_START ≠ [] := by unfold MARKER_START; decide

theorem endNe : MARKER_END ≠ [] := by unfold MARKER_END; decide

theorem pfxNe : CAPTURE_PFX ≠ [] := by unfold CAPTURE_PFX; decide

/-! ## Replacement-template processing -/

theorem processRepl_eq_self {s : Str} (h : '\\' ∉ s) : processRepl s = some s := by
  induction s with
  | nil => rfl
  | cons c rest ih =>
    have hc : ¬ c = '\\' := fun hcc => h (hcc ▸ List.mem_cons_self c rest)
    unfold processRepl
    rw [if_neg hc, ih (fun hm => h (List.mem_cons_of_mem c hm))]
    rfl

theorem stripLeadingNl_cons {t : Str} : stripLeadingNl ('\n' :: t) = t := by
  simp [stripLeadingNl]

theorem stripLeadingNl_nil : stripLeadingNl [] = [] := rfl

/-! ## The regex substitution -/

theorem reSubAux_noMatch {repl s : Str} {fuel : Nat}
    (h : splitFirst MARKER_START s = none) : reSubAux repl fuel s = s := by
  cases fuel with
  | zero => rfl
  | succ f => unfold reSubAux; rw [h]

theorem reSubAux_step {repl s pre rest1 mid rest2 : Str} {fuel : Nat}
    (h1 : splitFirst MARKER_START s = some (pre, rest1))
    (h2 : splitFirst MARKER_END rest1 = some (mid, rest2))
    (h3 : splitFirst MARKER_START (stripLeadingNl rest2) = none) :
    reSubAux repl (fuel + 1) s = pre ++ repl ++ stripLeadingNl rest2 := by
  simp only [reSubAux, h1, h2]
  rw [reSubAux_noMatch h3]

/-- The marker branch of `_merge_toml`: on content with a single well-formed
sentinel block whose closing sentinel line ends in a newline, the block
(markers, inner text and the newline ending the closing sentinel line) is
replaced by the processed template, and the surrounding text is kept. -/
theorem mergeToml_marked {X pre mid post B : Str}
    (hX : X = pre ++ MARKER_START ++ mid ++ MARKER_END ++ '\n' :: post)
    (hpre : ¬ MARKER_START <:+: pre)
    (hmid : ¬ MARKER_END <:+: mid)
    (hpost : ¬ MARKER_START <:+: post)
    (hrepl : processRepl B = some B) :
    mergeToml (some X) B = some (pre ++ B ++ post) := by
  have hX2 : X = pre ++ MARKER_START ++ (mid ++ MARKER_END ++ '\n' :: post) := by
    rw [hX]; simp [List.append_assoc]
  have h1 : splitFirst MARKER_START X = some (pre, mid ++ MARKER_END ++ '\n' :: post) := by
    rw [hX2]; exact sf_exact bfStart hpre
  have h2 : splitFirst MARKER_END (mid ++ MARKER_END ++ '\n' :: post)
      = some (mid, '\n' :: post) :=
    sf_exact bfEnd hmid
  have h3 : splitFirst MARKER_START (stripLeadingNl ('\n' :: post)) = none := by
    rw [stripLeadingNl_cons]; exact sf_none_iff.mpr hpost
  have hcs : containsSub MARKER_START X = true := by
    unfold containsSub; rw [h1]; rfl
  have hce : containsSub MARKER_END X = true := by
    apply containsSub_true_iff.mpr
    refine ⟨pre ++ MARKER_START ++ mid, '\n' :: post, ?_⟩
    rw [hX]
  simp only [mergeToml]
  rw [if_pos ⟨hcs, hce⟩, hrepl]
  simp only [Option.map, Option.some.injEq]
  unfold reSub
  have hlen : X.length = (X.length - 1) + 1 := by
    have : X ≠ [] := by
      intro hc
      rw [hc] at h1
      unfold splitFirst at h1
      revert h1
      split
      · rename_i hp
        have : MARKER_START = [] :=
          List.prefix_nil.mp ( List.isPrefixOf_iff_prefix.mp hp)
        exact absurd this startNe
      · simp
    have : 0 < X.length := List.length_pos.mpr this
    omega
  rw [hlen, reSubAux_step h1 h2 h3, stripLeadingNl_cons]

/-- The append branch of `_merge_toml`: content lacking the sentinel pair is
kept as a byte-for-byte prefix, with the managed block appended after a
blank-line separator. -/
theorem mergeToml_append {X B : Str}
    (h : ¬ (containsSub MARKER_START X = true ∧ containsSub MARKER_END X = true)) :
    mergeToml (some X) B
      = some (X ++ (if endsWithNewline X then [] else ['\n']) ++ '\n' :: B) := by
  simp only [mergeToml]
  rw [if_neg h]

/-! ## Claim C1: idempotence of the marker-delimited merge -/

/-- C1 (counterexample to the claim as stated): the merge is not idempotent
for every existing content.  Existing content containing a stray opening
sentinel (but no closing one) is appended-to on the first application; the
second application then matches from the stray sentinel and deletes the
user content between it and the generated block's closing sentinel. -/
theorem c1_counterexample :
    (mergeToml (some "# === AGENTSYNC START ===\nuser\n".data)
        (generateMcp [("s".data, ⟨"s".data, [("command".data, TomlVal.str "a".data)]⟩)])).bind
      (fun r => mergeToml (some r)
        (generateMcp [("s".data, ⟨"s".data, [("command".data, TomlVal.str "a".data)]⟩)]))
    ≠ mergeToml (some "# === AGENTSYNC START ===\nuser\n".data)
        (generateMcp [("s".data, ⟨"s".data, [("command".data, TomlVal.str "a".data)]⟩)]) := by
  decide

/-- C1 (amended): applying the merge twice with the same generated block
equals applying it once, provided the existing content contains neither
sentinel, the generated inner text contains neither sentinel, and the block
contains no backslash (`re.sub` processes the replacement string as an
escape template, and a backslash also triggers the stray-sentinel hazard
shown in the counterexample). -/
theorem c1_merge_idempotent (X : Str) (servers : List (Str × ServerConfig))
    (hXs : containsSub MARKER_START X = false)
    (hXe : containsSub MARKER_END X = false)
    (hIs : containsSub MARKER_START (innerToml servers) = false)
    (hIe : containsSub MARKER_END (innerToml servers) = false)
    (hBs : '\\' ∉ generateMcp servers) :
    (mergeToml (some X) (generateMcp servers)).bind
        (fun r => mergeToml (some r) (generateMcp servers))
      = mergeToml (some X) (generateMcp servers) := by
  have hni : ¬ MARKER_START <:+: X := containsSub_false_iff.mp hXs
  have hcond : ¬ (containsSub MARKER_START X = true ∧ containsSub MARKER_END X = true) := by
    intro hc
    rw [hXs] at hc
    exact absurd hc.1 (by simp)
  have h1 : mergeToml (some X) (generateMcp servers)
      = some (X ++ (if endsWithNewline X then [] else ['\n']) ++ '\n' :: generateMcp servers) :=
    mergeToml_append hcond
  rw [h1]
  have hR : X ++ (if endsWithNewline X then [] else ['\n']) ++ '\n' :: generateMcp servers
      = (X ++ (if endsWithNewline X then [] else ['\n']) ++ ['\n'])
          ++ MARKER_START ++ ('\n' :: (innerToml servers ++ ['\n']))
          ++ MARKER_END ++ '\n' :: [] := by
    simp [generateMcp, List.append_assoc]
  have hpre : ¬ MARKER_START <:+:
      X ++ (if endsWithNewline X then [] else ['\n']) ++ ['\n'] := by
    intro hc
    have hc2 : MARKER_START <:+: X ++ (if endsWithNewline X then [] else ['\n']) :=
      infix_concat_newline nlNotMemStart startNe hc
    by_cases hEW : endsWithNewline X
    · rw [if_pos hEW] at hc2
      exact hni (by simpa using hc2)
    · rw [if_neg hEW] at hc2
      exact hni (infix_concat_newline nlNotMemStart startNe hc2)
  have hmid : ¬ MARKER_END <:+: '\n' :: (innerToml servers ++ ['\n']) := by
    intro hc
    have hc2 := infix_cons_newline nlNotMemEnd endNe hc
    exact (containsSub_false_iff.mp hIe) (infix_concat_newline nlNotMemEnd endNe hc2)
  have hpost : ¬ MARKER_START <:+: ([] : Str) := by
    intro hc
    exact startNe (List.infix_nil.mp hc)
  have h2 := mergeToml_marked hR hpre hmid hpost (processRepl_eq_self hBs)
  rw [Option.some_bind, h2]
  simp [generateMcp, List.append_assoc]

/-- C1 witness. -/
theorem c1_merge_idempotent_witness :
    (mergeToml (some "x\n".data)
        (generateMcp [("s".data, ⟨"s".data, [("command".data, TomlVal.str "a".data)]⟩)])).bind
      (fun r => mergeToml (some r)
        (generateMcp [("s".data, ⟨"s".data, [("command".data, TomlVal.str "a".data)]⟩)]))
    = mergeToml (some "x\n".data)
        (generateMcp [("s".data, ⟨"s".data, [("command".data, TomlVal.str "a".data)]⟩)]) :=
  c1_merge_idempotent "x\n".data
    [("s".data, ⟨"s".data, [("command".data, TomlVal.str "a".data)]⟩)]
    (by decide) (by decide) (by decide) (by decide) (by decide)

/-! ## Claim C8: the merge preserves unmanaged content -/

/-- C8 (counterexample to the claim as stated): text between the sentinels
is not always replaced by `B` itself.  `re.sub` processes the replacement
as an escape template, so a generated block containing a backslash (here
from a config value with a backslash, serialized as an escaped TOML string)
is altered on splicing. -/
theorem c8_counterexample :
    mergeToml
        (some ("u\n".data ++ MARKER_START ++ "\nold\n".data
          ++ MARKER_END ++ '\n' :: "rest\n".data))
        (generateMcp [("s".data, ⟨"s".data, [("command".data, TomlVal.str "a\\b".data)]⟩)])
      ≠ some ("u\n".data
          ++ generateMcp [("s".data, ⟨"s".data, [("command".data, TomlVal.str "a\\b".data)]⟩)]
          ++ "rest\n".data) := by
  decide

/-- C8 (amended): on content lacking the sentinel pair the merge keeps the
existing content as a byte-for-byte prefix and appends the block after a
blank-line separator; on content with a single well-formed sentinel block
(closing sentinel line included, with its newline) and a backslash-free
block, the sentinel block is replaced by the new block and the text outside
it is preserved byte-for-byte. -/
theorem c8_mergeWrite_shape :
    (∀ X B : Str,
      ¬ (containsSub MARKER_START X = true ∧ containsSub MARKER_END X = true) →
      mergeToml (some X) B
          = some (X ++ (if endsWithNewline X then [] else ['\n']) ++ '\n' :: B)
        ∧ X <+: X ++ (if endsWithNewline X then [] else ['\n']) ++ '\n' :: B)
    ∧ (∀ pre mid post B : Str,
      containsSub MARKER_START pre = false →
      containsSub MARKER_END mid = false →
      containsSub MARKER_START post = false →
      '\\' ∉ B →
      mergeToml (some (pre ++ MARKER_START ++ mid ++ MARKER_END ++ '\n' :: post)) B
        = some (pre ++ B ++ post)) := by
  constructor
  · intro X B h
    refine ⟨mergeToml_append h, ?_⟩
    exact ⟨(if endsWithNewline X then [] else ['\n']) ++ '\n' :: B,
      by simp [List.append_assoc]⟩
  · intro pre mid post B h1 h2 h3 h4
    exact mergeToml_marked rfl (containsSub_false_iff.mp h1)
      (containsSub_false_iff.mp h2) (containsSub_false_iff.mp h3)
      (processRepl_eq_self h4)

/-- C8 witness. -/
theorem c8_mergeWrite_shape_witness :
    mergeToml (some "x".data) "B".data = some "x\n\nB".data
    ∧ mergeToml
        (some ("u\n".data ++ MARKER_START ++ "\nold\n".data
          ++ MARKER_END ++ '\n' :: "rest\n".data)) "NEW\n".data
      = some ("u\n".data ++ "NEW\n".data ++ "rest\n".data) := by
  constructor
  · have h := (c8_mergeWrite_shape.1 "x".data "B".data (by decide)).1
    rw [h]; decide
  · exact c8_mergeWrite_shape.2 "u\n".data "\nold\n".data "rest\n".data "NEW\n".data
      (by decide) (by decide) (by decide) (by decide)

/-! ## Claim C6: extraction of server names from generated output -/

theorem captureGo_spec {u t : Str} (hb : ']' ∉ u) (hn : '\n' ∉ u) :
    captureGo (u ++ ']' :: t) = some (u, t) := by
  induction u with
  | nil => simp [captureGo]
  | cons c u ih =>
    have hc1 : ¬ c = ']' := fun h => hb (h ▸ List.mem_cons_self c u)
    have hc2 : ¬ c = '\n' := fun h => hn (h ▸ List.mem_cons_self c u)
    rw [List.cons_append]
    simp only [captureGo]
    rw [if_neg hc1, if_neg hc2,
      ih (fun h => hb (List.mem_cons_of_mem c h)) (fun h => hn (List.mem_cons_of_mem c h))]
    rfl

theorem capture_spec {n t : Str} (hne : n ≠ []) (hb : ']' ∉ n) (hn : '\n' ∉ n) :
    capture (n ++ ']' :: t) = some (n, t) := by
  match n, hne with
  | c :: u, _ =>
    have hc2 : ¬ c = '\n' := fun h => hn (h ▸ List.mem_cons_self c u)
    rw [List.cons_append]
    simp only [capture]
    rw [if_neg hc2,
      captureGo_spec (fun h => hb (List.mem_cons_of_mem c h))
        (fun h => hn (List.mem_cons_of_mem c h))]
    rfl

theorem extractAux_noPfx {s : Str} {fuel : Nat}
    (h : splitFirst CAPTURE_PFX s = none) : extractAux fuel s = [] := by
  cases fuel with
  | zero => rfl
  | succ f => unfold extractAux; rw [h]

/-- Processing a string of capture segments yields exactly the segment
names, in order. -/
theorem extract_segs (pairs : List (Str × Str)) :
    ∀ lead : Str, ∀ fuel : Nat, pairs.length ≤ fuel →
    ¬ CAPTURE_PFX <:+: lead →
    (∀ pr ∈ pairs, pr.1 ≠ [] ∧ ']' ∉ pr.1 ∧ '\n' ∉ pr.1 ∧ ¬ CAPTURE_PFX <:+: pr.2) →
    extractAux fuel (lead ++ segs pairs) = pairs.map (fun pr => pr.1) := by
  induction pairs with
  | nil =>
    intro lead fuel _ hlead _
    simp only [segs, List.append_nil, List.map_nil]
    exact extractAux_noPfx (sf_none_iff.mpr hlead)
  | cons pr rest ih =>
    intro lead fuel hfuel hlead hall
    obtain ⟨n, b⟩ := pr
    match fuel, hfuel with
    | f + 1, hfuel =>
      obtain ⟨hne, hbr, hnl, hbpfx⟩ := hall (n, b) (List.mem_cons_self _ _)
      have hshape : lead ++ segs ((n, b) :: rest)
          = lead ++ CAPTURE_PFX ++ (n ++ ']' :: (b ++ segs rest)) := by
        simp [segs, List.append_assoc]
      have h1 : splitFirst CAPTURE_PFX (lead ++ segs ((n, b) :: rest))
          = some (lead, n ++ ']' :: (b ++ segs rest)) := by
        rw [hshape]; exact sf_exact bfPfx hlead
      simp only [extractAux, h1, capture_spec hne hbr hnl]
      rw [ih b f (by simpa using hfuel) hbpfx
        (fun q hq => hall q (List.mem_cons_of_mem _ hq))]
      simp

/-- A server's TOML block decomposes into the capture prefix, the sanitized
name, the closing bracket and the body tail. -/
theorem serverToToml_shape (n : Str) (c : List (Str × TomlVal)) :
    serverToToml n c = CAPTURE_PFX ++ sanitizeName n ++ ']' :: bodyTail c := by
  unfold serverToToml bodyTail
  cases hls : serverLines c with
  | nil =>
    simp [joinSep, CAPTURE_PFX, List.append_assoc]
  | cons l ls =>
    cases ls with
    | nil => simp [joinSep, CAPTURE_PFX, List.append_assoc]
    | cons l2 ls2 => simp [joinSep, CAPTURE_PFX, List.append_assoc]

/-- The generated inner text followed by the closing sentinel line is the
segment sequence of `pairsOf`. -/
theorem innerToml_segs (servers : List (Str × ServerConfig)) (hne : servers ≠ []) :
    innerToml servers ++ '\n' :: (MARKER_END ++ ['\n']) = segs (pairsOf servers) := by
  induction servers with
  | nil => exact absurd rfl hne
  | cons kv rest ih =>
    cases rest with
    | nil =>
      simp only [innerToml, List.map_cons, List.map_nil, joinSep, pairsOf, segs,
        serverToToml_shape, List.append_nil]
      simp [List.append_assoc]
    | cons kv2 rest2 =>
      have hrec := ih (by simp)
      simp only [pairsOf, segs]
      rw [← hrec]
      have hinner : innerToml (kv :: kv2 :: rest2)
          = serverToToml kv.1 kv.2.config ++ '\n' :: innerToml (kv2 :: rest2) := by
        simp [innerToml, joinSep, List.append_assoc]
      rw [hinner, serverToToml_shape]
      simp [List.append_assoc]

theorem sanitizeName_eq_self {n : Str} (h : '-' ∉ n) : sanitizeName n = n := by
  induction n with
  | nil => rfl
  | cons c u ih =>
    have hc : ¬ c = '-' := fun hcc => h (hcc ▸ List.mem_cons_self c u)
    simp only [sanitizeName, replaceChar] at ih ⊢
    simp [hc, ih (fun hm => h (List.mem_cons_of_mem c hm))]

theorem sanitizeName_mem {n : Str} {c : Char} (h : c ∈ sanitizeName n) :
    c ∈ n ∨ c = '_' := by
  simp only [sanitizeName, replaceChar, List.mem_flatMap] at h
  obtain ⟨a, ha, hc⟩ := h
  by_cases hd : a = '-'
  · rw [if_pos hd] at hc
    simp at hc
    exact Or.inr hc
  · rw [if_neg hd] at hc
    simp at hc
    exact Or.inl (hc ▸ ha)

theorem sanitizeName_ne_nil {n : Str} (h : n ≠ []) : sanitizeName n ≠ [] := by
  match n, h with
  | c :: u, _ =>
    simp only [sanitizeName, replaceChar, List.flatMap_cons]
    by_cases hd : c = '-' <;> simp [hd]

theorem pairsOf_names (servers : List (Str × ServerConfig)) :
    (pairsOf servers).map (fun pr => pr.1)
      = servers.map (fun kv => sanitizeName kv.1) := by
  induction servers with
  | nil => rfl
  | cons kv rest ih =>
    cases rest with
    | nil => simp [pairsOf]
    | cons kv2 rest2 => simp [pairsOf, ih]

theorem pairsOf_length (servers : List (Str × ServerConfig)) :
    (pairsOf servers).length = servers.length := by
  have := pairsOf_names servers
  have h1 := congrArg List.length this
  simpa using h1

theorem segs_length_ge (pairs : List (Str × Str)) :
    pairs.length ≤ (segs pairs).length := by
  induction pairs with
  | nil => simp [segs]
  | cons pr rest ih =>
    obtain ⟨n, b⟩ := pr
    simp only [segs, List.length_cons, List.length_append]
    have : 0 < CAPTURE_PFX.length := by unfold CAPTURE_PFX; decide
    omega

/-- The side conditions of `extract_segs` hold for the segments of a
generated document whose server names are well-formed and whose bodies do
not contain the capture prefix. -/
theorem pairsOf_conditions (servers : List (Str × ServerConfig))
    (h : ∀ kv ∈ servers, kv.1 ≠ [] ∧ '-' ∉ kv.1 ∧ ']' ∉ kv.1 ∧ '\n' ∉ kv.1
      ∧ containsSub CAPTURE_PFX (bodyTail kv.2.config) = false) :
    ∀ pr ∈ pairsOf servers,
      pr.1 ≠ [] ∧ ']' ∉ pr.1 ∧ '\n' ∉ pr.1 ∧ ¬ CAPTURE_PFX <:+: pr.2 := by
  induction servers with
  | nil => intro pr hpr; simp [pairsOf] at hpr
  | cons kv rest ih =>
    have hkv := h kv (List.mem_cons_self _ _)
    obtain ⟨hne, hdash, hbr, hnl, hbody⟩ := hkv
    have hname1 : sanitizeName kv.1 ≠ [] := sanitizeName_ne_nil hne
    have hname2 : ']' ∉ sanitizeName kv.1 := by
      intro hc
      rcases sanitizeName_mem hc with hm | hm
      · exact hbr hm
      · exact absurd hm (by decide)
    have hname3 : '\n' ∉ sanitizeName kv.1 := by
      intro hc
      rcases sanitizeName_mem hc with hm | hm
      · exact hnl hm
      · exact absurd hm (by decide)
    have hbody2 : ¬ CAPTURE_PFX <:+: bodyTail kv.2.config :=
      containsSub_false_iff.mp hbody
    cases rest with
    | nil =>
      intro pr hpr
      simp only [pairsOf, List.mem_singleton] at hpr
      subst hpr
      refine ⟨hname1, hname2, hname3, ?_⟩
      intro hc
      rcases infix_split_newline nlNotMemPfx hc with h1 | h1
      · exact hbody2 h1
      · have h2 : ¬ CAPTURE_PFX <:+: MARKER_END := by
          unfold CAPTURE_PFX MARKER_END; decide
        exact h2 (infix_concat_newline nlNotMemPfx pfxNe h1)
    | cons kv2 rest2 =>
      intro pr hpr
      rcases List.mem_cons.mp hpr with hpr1 | hpr2
      · subst hpr1
        refine ⟨hname1, hname2, hname3, ?_⟩
        intro hc
        exact hbody2 (infix_concat_newline nlNotMemPfx pfxNe hc)
      · exact ih (fun q hq => h q (List.mem_cons_of_mem _ hq)) pr hpr2

/-- C6 (counterexample to the claim as stated): a hyphen in a server name
is sanitized to an underscore in the generated TOML table name, and the
extractor does not reverse the substitution, so the original identity is
not recovered. -/
theorem c6_counterexample :
    "my-server".data ∈
        ([("my-server".data,
          (⟨"my-server".data, [("command".data, TomlVal.str "npx".data)]⟩ : ServerConfig))].map
          (fun kv => kv.1))
    ∧ "my-server".data ∉ extractServerNames (generateMcp
        [("my-server".data,
          ⟨"my-server".data, [("command".data, TomlVal.str "npx".data)]⟩)]) := by
  decide

/-- C6 (amended): for every registry whose server names are non-empty and
contain no hyphen, closing bracket or newline, and whose serialized config
bodies do not contain the capture prefix, extracting names from the
generated output returns exactly the registry's names, in order (hence the
same identity set). -/
theorem c6_extract_roundtrip (servers : List (Str × ServerConfig))
    (h : ∀ kv ∈ servers, kv.1 ≠ [] ∧ '-' ∉ kv.1 ∧ ']' ∉ kv.1 ∧ '\n' ∉ kv.1
      ∧ containsSub CAPTURE_PFX (bodyTail kv.2.config) = false) :
    extractServerNames (generateMcp servers) = servers.map (fun kv => kv.1) := by
  cases hs : servers with
  | nil => decide
  | cons kv0 rest0 =>
    rw [← hs]
    have hne : servers ≠ [] := by rw [hs]; simp
    have hdoc : generateMcp servers = (MARKER_START ++ ['\n']) ++ segs (pairsOf servers) := by
      rw [← innerToml_segs servers hne]
      simp [generateMcp, List.append_assoc]
    have hlead : ¬ CAPTURE_PFX <:+: MARKER_START ++ ['\n'] := by
      intro hc
      have h2 : ¬ CAPTURE_PFX <:+: MARKER_START := by
        unfold CAPTURE_PFX MARKER_START; decide
      exact h2 (infix_concat_newline nlNotMemPfx pfxNe hc)
    have hfuel : (pairsOf servers).length ≤ (generateMcp servers).length := by
      rw [hdoc]
      have h1 := segs_length_ge (pairsOf servers)
      simp only [List.length_append]
      omega
    unfold extractServerNames
    rw [hdoc] at *
    rw [extract_segs (pairsOf servers) (MARKER_START ++ ['\n'])
      ((MARKER_START ++ ['\n']) ++ segs (pairsOf servers)).length hfuel hlead
      (pairsOf_conditions servers h)]
    rw [pairsOf_names]
    apply List.map_congr_left
    intro kv hkv
    exact sanitizeName_eq_self (h kv hkv).2.1

/-- C6 witness. -/
theorem c6_extract_roundtrip_witness :
    extractServerNames (generateMcp
        [("alpha".data, ⟨"alpha".data, [("command".data, TomlVal.str "npx".data)]⟩),
         ("beta".data, ⟨"beta".data, [("url".data, TomlVal.str "u".data)]⟩)])
      = ["alpha".data, "beta".data] := by
  have h := c6_extract_roundtrip
    [("alpha".data, ⟨"alpha".data, [("command".data, TomlVal.str "npx".data)]⟩),
     ("beta".data, ⟨"beta".data, [("url".data, TomlVal.str "u".data)]⟩)]
    (by decide)
  rw [h]
  rfl

/-! ## Claim C4: cascading section exclusion -/

theorem flagAfter_cons (excl : List Str) (flag : Bool) (s : Section) (xs : List Section) :
    flagAfter excl flag (s :: xs)
      = flagAfter excl (if s.level = 2 then excl.contains s.header else flag) xs := rfl

theorem filterAux_append (excl : List Str) (xs ys : List Section) :
    ∀ flag, filterAux excl flag (xs ++ ys)
      = filterAux excl flag xs ++ filterAux excl (flagAfter excl flag xs) ys := by
  induction xs with
  | nil => intro flag; simp [filterAux, flagAfter]
  | cons s xs ih =>
    intro flag
    by_cases h2 : s.level = 2
    · by_cases hex : s.header ∈ excl
      · simp [filterAux, flagAfter_cons, h2, hex, ih]
      · simp [filterAux, flagAfter_cons, h2, hex, ih]
    · by_cases h3 : (flag && s.level == 3) = true
      · simp [filterAux, flagAfter_cons, h2, h3, ih]
      · by_cases hex : s.header ∈ excl
        · simp [filterAux, flagAfter_cons, h2, h3, hex, ih]
        · simp [filterAux, flagAfter_cons, h2, h3, hex, ih]

theorem filterAux_minors (excl : List Str) (mids ys : List Section)
    (h : ∀ s ∈ mids, s.level = 3) :
    filterAux excl true (mids ++ ys) = filterAux excl true ys := by
  induction mids with
  | nil => rfl
  | cons s ms ih =>
    have h3 : s.level = 3 := h s (List.mem_cons_self _ _)
    have h2 : ¬ s.level = 2 := by simp [h3]
    simp [filterAux, h2, h3, ih (fun q hq => h q (List.mem_cons_of_mem _ hq))]

theorem filterAux_level2_flag (excl : List Str) (s : Section) (rest : List Section)
    (h : s.level = 2) (b1 b2 : Bool) :
    filterAux excl b1 (s :: rest) = filterAux excl b2 (s :: rest) := by
  by_cases hex : s.header ∈ excl <;> simp [filterAux, h, hex]

/-- C4: excluding a major (level-2) header drops it together with every
minor (level-3) section up to the next major section; excluding a minor
header by name removes exactly that section; and on the Secrets/Keys/Usage
scenario the filter keeps only the Usage section. -/
theorem c4_filter_cascade :
    (∀ (excl : List Str) (pre mids post : List Section) (maj : Section),
      maj.level = 2 → excl.contains maj.header = true →
      (∀ s ∈ mids, s.level = 3) →
      (post = [] ∨ ∃ h2s rest2, post = h2s :: rest2 ∧ h2s.level = 2) →
      filterSections (pre ++ maj :: (mids ++ post)) excl
        = filterSections pre excl ++ filterSections post excl)
    ∧ (∀ (excl : List Str) (pre post : List Section) (m : Section),
      m.level = 3 → excl.contains m.header = true →
      filterSections (pre ++ m :: post) excl = filterSections (pre ++ post) excl)
    ∧ filterSections
        [⟨"Secrets".data, 2, "## Secrets\nk".data⟩,
         ⟨"Keys".data, 3, "### Keys".data⟩,
         ⟨"Usage".data, 2, "## Usage".data⟩] ["Secrets".data]
      = [⟨"Usage".data, 2, "## Usage".data⟩] := by
  refine ⟨?_, ?_, by decide⟩
  · intro excl pre mids post maj hmaj hex hmids hpost
    unfold filterSections
    rw [filterAux_append]
    congr 1
    have hex2 : maj.header ∈ excl := by simpa using hex
    have hstep : filterAux excl (flagAfter excl false pre) (maj :: (mids ++ post))
        = filterAux excl true (mids ++ post) := by
      simp [filterAux, hmaj, hex2]
    rw [hstep, filterAux_minors excl mids post hmids]
    rcases hpost with rfl | ⟨h2s, rest2, rfl, hlev⟩
    · rfl
    · exact filterAux_level2_flag excl h2s rest2 hlev true false
  · intro excl pre post m hm hex
    unfold filterSections
    rw [filterAux_append, filterAux_append]
    congr 1
    have hm2 : ¬ m.level = 2 := by simp [hm]
    have hex2 : m.header ∈ excl := by simpa using hex
    by_cases hfl : (flagAfter excl false pre && m.level == 3) = true
    · simp [filterAux, hm2, hfl]
    · simp [filterAux, hm2, hfl, hex2]

/-- C4 witness. -/
theorem c4_filter_cascade_witness :
    filterSections ([⟨"A".data, 2, "a".data⟩] ++ ⟨"Secrets".data, 2, "s".data⟩ ::
        ([⟨"Keys".data, 3, "k".data⟩] ++ [⟨"Usage".data, 2, "u".data⟩])) ["Secrets".data]
      = filterSections [⟨"A".data, 2, "a".data⟩] ["Secrets".data]
        ++ filterSections [⟨"Usage".data, 2, "u".data⟩] ["Secrets".data] :=
  c4_filter_cascade.1 ["Secrets".data] [⟨"A".data, 2, "a".data⟩]
    [⟨"Keys".data, 3, "k".data⟩] [⟨"Usage".data, 2, "u".data⟩]
    ⟨"Secrets".data, 2, "s".data⟩ rfl (by decide) (by decide)
    (Or.inr ⟨⟨"Usage".data, 2, "u".data⟩, [], rfl, rfl⟩)

/-! ## Python-dict lemmas -/

theorem dictInsert_cons_ne {V : Type} {k1 k0 : Str} (v1 : V) (rest : List (Str × V))
    (v0 : V) (h : ¬ (k1 == k0) = true) :
    dictInsert ((k1, v1) :: rest) k0 v0 = (k1, v1) :: dictInsert rest k0 v0 := by
  have hf : (k1 == k0) = false := by
    cases hc : (k1 == k0)
    · rfl
    · exact absurd hc h
  unfold dictInsert
  by_cases hany : rest.any (fun kv => kv.1 == k0) = true
  · simp [hany, hf]
    intro hc
    exact absurd (by simp [hc]) h
  · simp [hany, hf]

theorem dictInsert_cons_eq {V : Type} {k1 k0 : Str} (v1 : V) (rest : List (Str × V))
    (v0 : V) (h : (k1 == k0) = true) (hrest : ∀ kv ∈ rest, ¬ (kv.1 == k0) = true) :
    dictInsert ((k1, v1) :: rest) k0 v0 = (k1, v0) :: rest := by
  unfold dictInsert
  have hany : ((k1, v1) :: rest).any (fun kv => kv.1 == k0) = true := by
    simp only [List.any_cons]
    rw [h]
    rfl
  rw [if_pos hany]
  simp only [List.map_cons, if_pos h]
  congr 1
  have hcg : rest.map (fun kv => if (kv.1 == k0) = true then (kv.1, v0) else kv)
      = rest.map id :=
    List.map_congr_left (fun kv hkv => by rw [if_neg (hrest kv hkv)]; rfl)
  rw [hcg, List.map_id]

theorem lookup_dictInsert {V : Type} (d : List (Str × V)) (k0 : Str) (v0 : V) (k : Str)
    (hnd : (d.map Prod.fst).Nodup) :
    (dictInsert d k0 v0).lookup k
      = if (k == k0) = true then some v0 else d.lookup k := by
  induction d with
  | nil =>
    unfold dictInsert
    cases hk : (k == k0) <;> simp [List.lookup, hk]
  | cons e rest ih =>
    obtain ⟨k1, v1⟩ := e
    have hnd2 : (rest.map Prod.fst).Nodup := by
      simp only [List.map_cons, List.nodup_cons] at hnd
      exact hnd.2
    have hk1mem : k1 ∉ rest.map Prod.fst := by
      simp only [List.map_cons, List.nodup_cons] at hnd
      exact hnd.1
    by_cases h : (k1 == k0) = true
    · have hk10 : k1 = k0 := by simpa using h
      have hrest : ∀ kv ∈ rest, ¬ (kv.1 == k0) = true := by
        intro kv hkv hc
        have hkv0 : kv.1 = k0 := by simpa using hc
        exact hk1mem (by
          rw [hk10, ← hkv0]
          exact List.mem_map_of_mem Prod.fst hkv)
      rw [dictInsert_cons_eq v1 rest v0 h hrest]
      by_cases hk : (k == k1) = true
      · have hkk0 : (k == k0) = true := by
          have : k = k1 := by simpa using hk
          simp [this, hk10]
        simp [List.lookup, hk, hkk0]
      · have hkk0 : ¬ (k == k0) = true := by
          intro hc
          have h1 : k = k0 := by simpa using hc
          exact hk (by simp [h1, hk10])
        simp [List.lookup, hk, hkk0]
    · rw [dictInsert_cons_ne v1 rest v0 h]
      by_cases hk : (k == k1) = true
      · have hkk0 : ¬ (k == k0) = true := by
          intro hc
          have h1 : k = k0 := by simpa using hc
          have h2 : k = k1 := by simpa using hk
          exact h (by simp [← h1, h2])
        simp [List.lookup, hk, hkk0]
      · simp only [List.lookup, hk]
        rw [ih hnd2]

theorem dictInsert_keys {V : Type} (d : List (Str × V)) (k0 : Str) (v0 : V) :
    (dictInsert d k0 v0).map Prod.fst
      = if d.any (fun kv => kv.1 == k0) = true then d.map Prod.fst
        else d.map Prod.fst ++ [k0] := by
  unfold dictInsert
  by_cases hany : d.any (fun kv => kv.1 == k0) = true
  · rw [if_pos hany, if_pos hany, List.map_map]
    refine List.map_congr_left (fun kv _ => ?_)
    simp only [Function.comp]
    by_cases hc : (kv.1 == k0) = true <;> simp [hc]
  · rw [if_neg hany, if_neg hany]
    rw [List.map_append]
    rfl

theorem dictInsert_keys_nodup {V : Type} (d : List (Str × V)) (k0 : Str) (v0 : V)
    (hnd : (d.map Prod.fst).Nodup) : ((dictInsert d k0 v0).map Prod.fst).Nodup := by
  rw [dictInsert_keys]
  by_cases hany : d.any (fun kv => kv.1 == k0) = true
  · rw [if_pos hany]; exact hnd
  · rw [if_neg hany]
    have hk0 : k0 ∉ d.map Prod.fst := by
      intro hc
      rcases List.mem_map.mp hc with ⟨kv, hkv, hfst⟩
      rw [List.any_eq_true] at hany
      exact hany ⟨kv, hkv, by simp [hfst]⟩
    exact List.Nodup.append hnd (List.nodup_singleton k0)
      (fun a ha hb => hk0 ((List.mem_singleton.mp hb) ▸ ha))

theorem lookup_eq_none_of_not_mem {V : Type} {d : List (Str × V)} {k : Str}
    (h : k ∉ d.map Prod.fst) : d.lookup k = none := by
  induction d with
  | nil => rfl
  | cons e rest ih =>
    obtain ⟨k1, v1⟩ := e
    have h1 : ¬ (k == k1) = true := by
      intro hc
      have hkk : k = k1 := by simpa using hc
      subst hkk
      exact h (List.mem_cons_self _ _)
    simp only [List.lookup, h1]
    exact ih (fun hc => h (List.mem_cons_of_mem _ hc))

theorem lookup_dictUpdate {V : Type} (e : List (Str × V)) :
    ∀ d : List (Str × V), (d.map Prod.fst).Nodup → (e.map Prod.fst).Nodup →
    ∀ k, (dictUpdate d e).lookup k = ((e.lookup k).or (d.lookup k)) := by
  induction e with
  | nil =>
    intro d _ _ k
    simp [dictUpdate, List.lookup]
  | cons pr e2 ih =>
    intro d hnd hne k
    obtain ⟨k0, v0⟩ := pr
    have hstep : dictUpdate d ((k0, v0) :: e2) = dictUpdate (dictInsert d k0 v0) e2 := rfl
    have hnd2 : ((dictInsert d k0 v0).map Prod.fst).Nodup :=
      dictInsert_keys_nodup d k0 v0 hnd
    have hne2 : (e2.map Prod.fst).Nodup := by
      simp only [List.map_cons, List.nodup_cons] at hne
      exact hne.2
    have hk0e2 : k0 ∉ e2.map Prod.fst := by
      simp only [List.map_cons, List.nodup_cons] at hne
      exact hne.1
    rw [hstep, ih (dictInsert d k0 v0) hnd2 hne2 k, lookup_dictInsert d k0 v0 k hnd]
    by_cases hk : (k == k0) = true
    · have hkeq : k = k0 := by simpa using hk
      have he2 : e2.lookup k = none :=
        lookup_eq_none_of_not_mem (by rw [hkeq]; exact hk0e2)
      simp [List.lookup, hk, he2, if_pos hk]
    · simp [List.lookup, hk]

theorem dictUpdate_keys_nodup {V : Type} (e : List (Str × V)) :
    ∀ d : List (Str × V), (d.map Prod.fst).Nodup →
    ((dictUpdate d e).map Prod.fst).Nodup := by
  induction e with
  | nil => intro d hd; exact hd
  | cons pr e2 ih =>
    intro d hd
    exact ih (dictInsert d pr.1 pr.2) (dictInsert_keys_nodup d pr.1 pr.2 hd)

/-! ## Claim C2: three-tier merge priority -/

theorem loadServers_eq (g : Option (List (Str × TomlVal))) (key : Str)
    (m : Option (List (Str × TomlVal))) :
    loadServers g key m
      = dictUpdate (dictUpdate (dictUpdate [] (tier1 g)) (tier2 g key)) (tier3 m) := by
  unfold loadServers
  by_cases h : (tier2 g key).isEmpty = true
  · have h2 : tier2 g key = [] := by
      cases hc : tier2 g key
      · rfl
      · rw [hc] at h; simp at h
    rw [h2]
    simp [dictUpdate]
  · simp only [h]
    rfl

/-- C2: the merged registry resolves every identity to the
highest-priority tier that defines it (local `.mcp.json` over the global
per-project block over the global top-level mapping), and on the concrete
three-tier scenario the winning definition for `a` has `command = "y"`. -/
theorem c2_three_tier_priority :
    (∀ (g : Option (List (Str × TomlVal))) (key : Str)
        (m : Option (List (Str × TomlVal))) (k : Str),
      ((tier1 g).map Prod.fst).Nodup → ((tier2 g key).map Prod.fst).Nodup →
      ((tier3 m).map Prod.fst).Nodup →
      (loadServers g key m).lookup k
        = ((tier3 m).lookup k).or
            (((tier2 g key).lookup k).or ((tier1 g).lookup k)))
    ∧ ((loadServers
          (some [("mcpServers".data, TomlVal.table
              [("a".data, TomlVal.table [("command".data, TomlVal.str "x".data)])]),
            ("projects".data, TomlVal.table
              [("/p".data, TomlVal.table [("mcpServers".data, TomlVal.table
                [("a".data, TomlVal.table
                  [("command".data, TomlVal.str "y".data)])])])])])
          "/p".data
          (some [("mcpServers".data, TomlVal.table [])])).lookup "a".data).map
        (fun sc => sc.config.lookup "command".data)
      = some (some (TomlVal.str "y".data)) := by
  constructor
  · intro g key m k h1 h2 h3
    rw [loadServers_eq]
    have hd1 : ((dictUpdate ([] : List (Str × ServerConfig)) (tier1 g)).map Prod.fst).Nodup :=
      dictUpdate_keys_nodup (tier1 g) [] (by simp)
    have hd2 : ((dictUpdate (dictUpdate [] (tier1 g)) (tier2 g key)).map Prod.fst).Nodup :=
      dictUpdate_keys_nodup (tier2 g key) _ hd1
    rw [lookup_dictUpdate (tier3 m) _ hd2 h3 k,
      lookup_dictUpdate (tier2 g key) _ hd1 h2 k,
      lookup_dictUpdate (tier1 g) [] (by simp) h1 k]
    simp [List.lookup]
  · rfl

/-- C2 witness. -/
theorem c2_three_tier_priority_witness :
    (loadServers
        (some [("mcpServers".data, TomlVal.table
            [("a".data, TomlVal.table [("command".data, TomlVal.str "x".data)])]),
          ("projects".data, TomlVal.table
            [("/p".data, TomlVal.table [("mcpServers".data, TomlVal.table
              [("a".data, TomlVal.table
                [("command".data, TomlVal.str "y".data)])])])])])
        "/p".data
        (some [("mcpServers".data, TomlVal.table [])])).lookup "a".data
      = ((tier3 (some [("mcpServers".data, TomlVal.table [])])).lookup "a".data).or
          (((tier2
              (some [("mcpServers".data, TomlVal.table
                  [("a".data, TomlVal.table [("command".data, TomlVal.str "x".data)])]),
                ("projects".data, TomlVal.table
                  [("/p".data, TomlVal.table [("mcpServers".data, TomlVal.table
                    [("a".data, TomlVal.table
                      [("command".data, TomlVal.str "y".data)])])])])])
              "/p".data).lookup "a".data).or
            ((tier1
              (some [("mcpServers".data, TomlVal.table
                  [("a".data, TomlVal.table [("command".data, TomlVal.str "x".data)])]),
                ("projects".data, TomlVal.table
                  [("/p".data, TomlVal.table [("mcpServers".data, TomlVal.table
                    [("a".data, TomlVal.table
                      [("command".data, TomlVal.str "y".data)])])])])])).lookup "a".data)) :=
  c2_three_tier_priority.1
    (some [("mcpServers".data, TomlVal.table
        [("a".data, TomlVal.table [("command".data, TomlVal.str "x".data)])]),
      ("projects".data, TomlVal.table
        [("/p".data, TomlVal.table [("mcpServers".data, TomlVal.table
          [("a".data, TomlVal.table
            [("command".data, TomlVal.str "y".data)])])])])])
    "/p".data
    (some [("mcpServers".data, TomlVal.table [])])
    "a".data
    (by decide) (by decide) (by decide)

/-! ## Claim C3: case-insensitive deduplication -/

theorem dedupStep_seen_lookup (st : DedupState) (e : Str × ServerConfig) (l : Str)
    (hnd : (st.seen.map Prod.fst).Nodup) :
    ((dedupStep st e).seen).lookup l
      = if (l == strLower e.1) = true then some (e.1, e.2) else st.seen.lookup l := by
  unfold dedupStep
  rcases h : st.seen.lookup (strLower e.1) with _ | prev <;>
    simp only [h] <;>
    exact lookup_dictInsert st.seen (strLower e.1) (e.1, e.2) l hnd

theorem dedupStep_seen_nodup (st : DedupState) (e : Str × ServerConfig)
    (hnd : (st.seen.map Prod.fst).Nodup) :
    ((dedupStep st e).seen.map Prod.fst).Nodup := by
  unfold dedupStep
  rcases h : st.seen.lookup (strLower e.1) with _ | prev <;>
    simp only [h] <;>
    exact dictInsert_keys_nodup _ _ _ hnd

theorem dedup_fold_nodup (s : List (Str × ServerConfig)) :
    ∀ st, (st.seen.map Prod.fst).Nodup →
    (((s.foldl dedupStep st).seen).map Prod.fst).Nodup := by
  induction s with
  | nil => intro st h; exact h
  | cons e s2 ih => intro st h; exact ih _ (dedupStep_seen_nodup st e h)

theorem dedup_fold_lookup (s : List (Str × ServerConfig)) :
    ∀ st, (st.seen.map Prod.fst).Nodup → ∀ l,
    ((s.foldl dedupStep st).seen).lookup l
      = ((s.reverse.find? (fun kv => strLower kv.1 == l)).map
          (fun kv => (kv.1, kv.2))).or (st.seen.lookup l) := by
  induction s with
  | nil => intro st _ l; simp
  | cons e s2 ih =>
    intro st hnd l
    rw [List.foldl_cons, ih (dedupStep st e) (dedupStep_seen_nodup st e hnd) l,
      dedupStep_seen_lookup st e l hnd, List.reverse_cons, List.find?_append]
    by_cases hl : l = strLower e.1
    · subst hl
      have hsingle : ([e].find? (fun kv => strLower kv.1 == strLower e.1)) = some e := by
        simp [List.find?]
      rcases hf : (s2.reverse.find? (fun kv => strLower kv.1 == strLower e.1))
          with _ | kv <;>
        simp [hf, hsingle]
    · have hbeq : (strLower e.1 == l) = false := by
        cases hc : (strLower e.1 == l)
        · rfl
        · have hx : strLower e.1 = l := by simpa using hc
          exact absurd hx.symm hl
      have hsingle : ([e].find? (fun kv => strLower kv.1 == l)) = none := by
        simp [List.find?, hbeq]
      have hif : (l == strLower e.1) = false := by
        cases hc : (l == strLower e.1)
        · rfl
        · exact absurd (by simpa using hc) hl
      rcases hf : (s2.reverse.find? (fun kv => strLower kv.1 == l)) with _ | kv <;>
        simp [hf, hsingle, hif]

theorem lookup_map_snd (seen : List (Str × (Str × ServerConfig))) (l : Str) :
    (seen.map (fun e2 => (e2.1, e2.2.2))).lookup l
      = (seen.lookup l).map (fun pr => pr.2) := by
  induction seen with
  | nil => rfl
  | cons e2 rest ih =>
    by_cases h : (l == e2.1) = true <;> simp [List.lookup, h, ih]

theorem mem_keys_of_lookup {V : Type} {d : List (Str × V)} {k : Str} {v : V}
    (h : d.lookup k = some v) : k ∈ d.map Prod.fst := by
  induction d with
  | nil => simp [List.lookup] at h
  | cons e rest ih =>
    rcases hc : (k == e.1) with _ | _
    · simp only [List.lookup, hc] at h
      exact List.mem_cons_of_mem _ (ih h)
    · have : k = e.1 := by simpa using hc
      rw [this]
      exact List.mem_cons_self _ _

theorem count_keys_one {l : List Str} {a : Str} (hnd : l.Nodup) (ha : a ∈ l) :
    l.count a = 1 := by
  induction l with
  | nil => simp at ha
  | cons b rest ih =>
    rcases List.mem_cons.mp ha with rfl | hmem
    · have hb : a ∉ rest := (List.nodup_cons.mp hnd).1
      rw [List.count_cons_self]
      have hz : rest.count a = 0 := List.count_eq_zero.mpr hb
      omega
    · rw [List.count_cons_of_ne]
      · exact ih (List.nodup_cons.mp hnd).2 hmem
      · intro hc
        subst hc
        exact (List.nodup_cons.mp hnd).1 hmem

theorem dedupStep_logs (st : DedupState) (e : Str × ServerConfig) :
    ∃ t, (dedupStep st e).logs = st.logs ++ t := by
  unfold dedupStep
  rcases h : st.seen.lookup (strLower e.1) with _ | prev
  · exact ⟨[], by simp [h]⟩
  · refine ⟨if prev.1 ≠ e.1 then [dedupMsg prev.1 e.1] else [], ?_⟩
    simp only [h]
    by_cases h2 : prev.1 ≠ e.1
    · simp [h2]
    · simp [h2]

theorem dedup_fold_logs (s : List (Str × ServerConfig)) :
    ∀ st, ∃ t, (s.foldl dedupStep st).logs = st.logs ++ t := by
  induction s with
  | nil => intro st; exact ⟨[], by simp⟩
  | cons e s2 ih =>
    intro st
    obtain ⟨t1, h1⟩ := dedupStep_logs st e
    obtain ⟨t2, h2⟩ := ih (dedupStep st e)
    exact ⟨t1 ++ t2, by rw [List.foldl_cons, h2, h1, List.append_assoc]⟩

theorem dedupStep_logs_collision (st : DedupState) (e prev : Str × ServerConfig)
    (h : st.seen.lookup (strLower e.1) = some prev) (hne2 : prev.1 ≠ e.1) :
    (dedupStep st e).logs = st.logs ++ [dedupMsg prev.1 e.1] := by
  unfold dedupStep
  simp only [h]
  simp [hne2]

/-- C3: when exactly two entries of the registry share a case-folded
identity (differing in spelling), deduplication keeps exactly one entry,
keyed by the lowercase form, holding the later entry's definition, and the
collision warning naming both spellings is emitted. -/
theorem c3_dedup_case_collision
    (s1 s2 s3 : List (Str × ServerConfig)) (ki kj : Str) (vi vj : ServerConfig)
    (hne : ki ≠ kj) (hlow : strLower ki = strLower kj)
    (hothers : ∀ kv ∈ s1 ++ s2 ++ s3, strLower kv.1 ≠ strLower kj) :
    ((dedupServers (s1 ++ (ki, vi) :: (s2 ++ (kj, vj) :: s3))).1.lookup (strLower kj)
        = some vj)
    ∧ (((dedupServers (s1 ++ (ki, vi) :: (s2 ++ (kj, vj) :: s3))).1.map Prod.fst).count
        (strLower kj) = 1)
    ∧ dedupMsg ki kj ∈ (dedupServers (s1 ++ (ki, vi) :: (s2 ++ (kj, vj) :: s3))).2 := by
  have hp : ∀ kv : Str × ServerConfig, kv ∈ s1 ∨ kv ∈ s2 ∨ kv ∈ s3 →
      (strLower kv.1 == strLower kj) = false := by
    intro kv hkv
    have hmem : kv ∈ s1 ++ s2 ++ s3 := by
      rcases hkv with h | h | h <;> simp [h]
    cases hc : (strLower kv.1 == strLower kj)
    · rfl
    · exact absurd (by simpa using hc) (hothers kv hmem)
  have hfold := dedup_fold_lookup (s1 ++ (ki, vi) :: (s2 ++ (kj, vj) :: s3))
    ⟨[], []⟩ (by simp) (strLower kj)
  have hrev : (s1 ++ (ki, vi) :: (s2 ++ (kj, vj) :: s3)).reverse
      = s3.reverse ++ [(kj, vj)] ++ (s2.reverse ++ [(ki, vi)] ++ s1.reverse) := by
    simp [List.append_assoc]
  have hfind : ((s1 ++ (ki, vi) :: (s2 ++ (kj, vj) :: s3)).reverse.find?
      (fun kv => strLower kv.1 == strLower kj)) = some (kj, vj) := by
    rw [hrev, List.find?_append, List.find?_append]
    have h3 : (s3.reverse.find? (fun kv => strLower kv.1 == strLower kj)) = none :=
      List.find?_eq_none.mpr (fun x hx => by
        simp [hp x (Or.inr (Or.inr (List.mem_reverse.mp hx)))])
    have hj : ([(kj, vj)].find? (fun kv => strLower kv.1 == strLower kj))
        = some (kj, vj) := by
      simp [List.find?]
    rw [h3, hj]
    rfl
  have hseen : ((( (s1 ++ (ki, vi) :: (s2 ++ (kj, vj) :: s3)).foldl dedupStep
      ⟨[], []⟩).seen).lookup (strLower kj)) = some (kj, vj) := by
    rw [hfold, hfind]
    rfl
  refine ⟨?_, ?_, ?_⟩
  · show ((((s1 ++ (ki, vi) :: (s2 ++ (kj, vj) :: s3)).foldl dedupStep
        ⟨[], []⟩).seen).map (fun e2 => (e2.1, e2.2.2))).lookup (strLower kj) = some vj
    rw [lookup_map_snd, hseen]
    rfl
  · have hnd : ((((s1 ++ (ki, vi) :: (s2 ++ (kj, vj) :: s3)).foldl dedupStep
        ⟨[], []⟩).seen).map Prod.fst).Nodup :=
      dedup_fold_nodup _ ⟨[], []⟩ (by simp)
    have hkeys : (((dedupServers (s1 ++ (ki, vi) :: (s2 ++ (kj, vj) :: s3))).1).map
        Prod.fst)
        = (((s1 ++ (ki, vi) :: (s2 ++ (kj, vj) :: s3)).foldl dedupStep
          ⟨[], []⟩).seen).map Prod.fst := by
      show ((((s1 ++ (ki, vi) :: (s2 ++ (kj, vj) :: s3)).foldl dedupStep
        ⟨[], []⟩).seen).map (fun e2 => (e2.1, e2.2.2))).map Prod.fst = _
      rw [List.map_map]
      rfl
    rw [hkeys]
    have hmem : strLower kj ∈ (((s1 ++ (ki, vi) :: (s2 ++ (kj, vj) :: s3)).foldl
        dedupStep ⟨[], []⟩).seen).map Prod.fst :=
      mem_keys_of_lookup hseen
    exact count_keys_one hnd hmem
  · have hsplit : s1 ++ (ki, vi) :: (s2 ++ (kj, vj) :: s3)
        = (s1 ++ (ki, vi) :: s2) ++ ((kj, vj) :: s3) := by
      simp [List.append_assoc]
    have hA := dedup_fold_lookup (s1 ++ (ki, vi) :: s2) ⟨[], []⟩ (by simp) (strLower kj)
    have hArev : (s1 ++ (ki, vi) :: s2).reverse
        = s2.reverse ++ [(ki, vi)] ++ s1.reverse := by
      simp [List.append_assoc]
    have hAfind : ((s1 ++ (ki, vi) :: s2).reverse.find?
        (fun kv => strLower kv.1 == strLower kj)) = some (ki, vi) := by
      rw [hArev, List.find?_append, List.find?_append]
      have h2 : (s2.reverse.find? (fun kv => strLower kv.1 == strLower kj)) = none :=
        List.find?_eq_none.mpr (fun x hx => by
          simp [hp x (Or.inr (Or.inl (List.mem_reverse.mp hx)))])
      have hi : ([(ki, vi)].find? (fun kv => strLower kv.1 == strLower kj))
          = some (ki, vi) := by
        simp [List.find?, hlow]
      rw [h2, hi]
      rfl
    have hAseen : (((s1 ++ (ki, vi) :: s2).foldl dedupStep ⟨[], []⟩).seen).lookup
        (strLower kj) = some (ki, vi) := by
      rw [hA, hAfind]
      rfl
    have hstep : (dedupStep ((s1 ++ (ki, vi) :: s2).foldl dedupStep ⟨[], []⟩)
        (kj, vj)).logs
        = ((s1 ++ (ki, vi) :: s2).foldl dedupStep ⟨[], []⟩).logs
          ++ [dedupMsg ki kj] :=
      dedupStep_logs_collision _ (kj, vj) (ki, vi) hAseen hne
    show dedupMsg ki kj ∈
      ((s1 ++ (ki, vi) :: (s2 ++ (kj, vj) :: s3)).foldl dedupStep ⟨[], []⟩).logs
    rw [hsplit, List.foldl_append, List.foldl_cons]
    obtain ⟨t, ht⟩ := dedup_fold_logs s3
      (dedupStep ((s1 ++ (ki, vi) :: s2).foldl dedupStep ⟨[], []⟩) (kj, vj))
    rw [ht, hstep]
    simp

/-- C3 witness. -/
theorem c3_dedup_case_collision_witness :
    ((dedupServers ([] ++ ("Notion".data, (⟨"Notion".data, []⟩ : ServerConfig)) ::
        ([] ++ ("notion".data, (⟨"notion".data, []⟩ : ServerConfig)) :: []))).1.lookup
          (strLower "notion".data)
        = some (⟨"notion".data, []⟩ : ServerConfig))
    ∧ (((dedupServers ([] ++ ("Notion".data, (⟨"Notion".data, []⟩ : ServerConfig)) ::
        ([] ++ ("notion".data, (⟨"notion".data, []⟩ : ServerConfig)) :: []))).1.map
          Prod.fst).count (strLower "notion".data) = 1)
    ∧ dedupMsg "Notion".data "notion".data ∈
        (dedupServers ([] ++ ("Notion".data, (⟨"Notion".data, []⟩ : ServerConfig)) ::
          ([] ++ ("notion".data, (⟨"notion".data, []⟩ : ServerConfig)) :: []))).2 :=
  c3_dedup_case_collision [] [] [] "Notion".data "notion".data
    ⟨"Notion".data, []⟩ ⟨"notion".data, []⟩
    (by decide) (by decide) (by simp)

/-! ## Claim C5: the server-consistency finding -/

/-- C5: the finding fails (with severity error) exactly when some expected
identity (after exclusions and any transport restriction) is absent from
the actual set; extras alone keep it passing (severity info); and the two
concrete scenarios produce exactly the recorded findings, the passing one
reporting the extra identity in its message. -/
theorem c5_consistency_finding :
    (∀ (expected : List (Str × ServerConfig)) (actual : List Str)
        (targetName : Str) (exclude : List Str) (stdioOnly : Bool),
      ((checkServerConsistency expected actual targetName exclude stdioOnly).passed = false
        ↔ ∃ k ∈ expectedNamesOf expected exclude stdioOnly, k ∉ actual)
      ∧ ((checkServerConsistency expected actual targetName exclude stdioOnly).passed = false →
          (checkServerConsistency expected actual targetName exclude stdioOnly).severity
            = "error".data)
      ∧ ((checkServerConsistency expected actual targetName exclude stdioOnly).passed = true →
          (checkServerConsistency expected actual targetName exclude stdioOnly).severity
            = "info".data))
    ∧ checkServerConsistency
        [("a".data, ⟨"a".data, [("command".data, TomlVal.int 1)]⟩),
         ("b".data, ⟨"b".data, [("command".data, TomlVal.int 1)]⟩)]
        ["a".data] "codex".data [] false
      = ⟨"codex server consistency".data, false, "missing 1: b".data, "error".data⟩
    ∧ checkServerConsistency
        [("a".data, ⟨"a".data, [("command".data, TomlVal.int 1)]⟩)]
        ["a".data, "c".data] "codex".data [] false
      = ⟨"codex server consistency".data, true,
          "2/1 expected servers present (extra 1: c)".data, "info".data⟩ := by
  refine ⟨?_, by decide, by decide⟩
  intro expected actual targetName exclude stdioOnly
  have hbridge : (((expectedNamesOf expected exclude stdioOnly).filter
      (fun k => !actual.contains k)) = [])
      ↔ ∀ k ∈ expectedNamesOf expected exclude stdioOnly, k ∈ actual := by
    rw [List.filter_eq_nil_iff]
    constructor
    · intro h k hk
      have h2 := h k hk
      simpa using h2
    · intro h k hk
      simp [h k hk]
  by_cases hm : ((expectedNamesOf expected exclude stdioOnly).filter
      (fun k => !actual.contains k)) = []
  · have hie : ((expectedNamesOf expected exclude stdioOnly).filter
        (fun k => !actual.contains k)).isEmpty = true := by rw [hm]; rfl
    have hr : (checkServerConsistency expected actual targetName exclude stdioOnly).passed
          = true
        ∧ (checkServerConsistency expected actual targetName exclude stdioOnly).severity
          = "info".data := by
      unfold checkServerConsistency
      simp only [hie]
      exact ⟨rfl, rfl⟩
    refine ⟨?_, ?_, ?_⟩
    · rw [hr.1]
      simp only [show (true = false) = False from by simp, false_iff]
      intro hc
      obtain ⟨k, hk, hnk⟩ := hc
      exact hnk (hbridge.mp hm k hk)
    · intro hc
      rw [hr.1] at hc
      exact absurd hc (by simp)
    · intro _
      exact hr.2
  · have hie : ((expectedNamesOf expected exclude stdioOnly).filter
        (fun k => !actual.contains k)).isEmpty = false := by
      cases hc : ((expectedNamesOf expected exclude stdioOnly).filter
          (fun k => !actual.contains k)).isEmpty
      · rfl
      · exact absurd (by simpa using hc) hm
    have hr : (checkServerConsistency expected actual targetName exclude stdioOnly).passed
          = false
        ∧ (checkServerConsistency expected actual targetName exclude stdioOnly).severity
          = "error".data := by
      unfold checkServerConsistency
      simp only [hie]
      exact ⟨rfl, rfl⟩
    refine ⟨?_, ?_, ?_⟩
    · rw [hr.1]
      simp only [true_iff]
      obtain ⟨x, hx⟩ := List.exists_mem_of_ne_nil _ hm
      have hx2 := List.mem_filter.mp hx
      refine ⟨x, hx2.1, ?_⟩
      intro hc
      have := hx2.2
      simp [hc] at this
    · intro _
      exact hr.2
    · intro hc
      rw [hr.1] at hc
      exact absurd hc (by simp)

/-! ## Claim C7: the transport allow-list -/

/-- C7 (counterexample to the claim as stated): an allow-list containing
both transports is not a no-op filter — a server declaring neither a
`command` nor a `url` key is dropped. -/
theorem c7_counterexample :
    filterServersFn [("s".data, (⟨"s".data, []⟩ : ServerConfig))]
        ⟨[], ["stdio".data, "http".data], none, none⟩
      ≠ [("s".data, (⟨"s".data, []⟩ : ServerConfig))] := by
  intro h
  have h2 : ([] : List (Str × ServerConfig))
      = [("s".data, (⟨"s".data, []⟩ : ServerConfig))] := by
    rw [← h]
    rfl
  simp at h2

/-- C7 (amended): with a non-empty allow-list and no exclusions, a server
survives the per-target filter exactly when it matches at least one listed
transport; in particular a list containing both transports keeps exactly
the servers declaring a command or a url (and still drops servers that
declare neither). -/
theorem c7_transport_allowlist :
    (∀ (servers : List (Str × ServerConfig)) (protos : List Str) (k : Str)
        (sc : ServerConfig), protos ≠ [] →
      ((k, sc) ∈ filterServersFn servers ⟨[], protos, none, none⟩
        ↔ (k, sc) ∈ servers ∧
          (("stdio".data ∈ protos.map strLower ∧ sc.is_stdio = true)
            ∨ ("http".data ∈ protos.map strLower ∧ sc.is_http = true))))
    ∧ (∀ (servers : List (Str × ServerConfig)) (k : Str) (sc : ServerConfig),
      ((k, sc) ∈ filterServersFn servers ⟨[], ["stdio".data, "http".data], none, none⟩
        ↔ (k, sc) ∈ servers ∧ (sc.is_stdio = true ∨ sc.is_http = true))) := by
  have hmain : ∀ (servers : List (Str × ServerConfig)) (protos : List Str) (k : Str)
      (sc : ServerConfig), protos ≠ [] →
      ((k, sc) ∈ filterServersFn servers ⟨[], protos, none, none⟩
        ↔ (k, sc) ∈ servers ∧
          (("stdio".data ∈ protos.map strLower ∧ sc.is_stdio = true)
            ∨ ("http".data ∈ protos.map strLower ∧ sc.is_http = true))) := by
    intro servers protos k sc hne
    have hnm : (protos.map strLower) ≠ [] := by
      intro hc
      exact hne (List.map_eq_nil.mp hc)
    have hie : (protos.map strLower).isEmpty = false := by
      cases hc : (protos.map strLower).isEmpty
      · rfl
      · exact absurd (by simpa using hc) hnm
    unfold filterServersFn
    rw [List.mem_filter]
    simp only [hie]
    rw [show ((List.map strLower ([] : List Str)).contains (strLower k)) = false from rfl]
    constructor
    · intro hh
      refine ⟨hh.1, ?_⟩
      have hp := hh.2
      rw [if_neg (by simp), if_neg (by simp)] at hp
      simp only [Bool.or_eq_true, Bool.and_eq_true] at hp
      rcases hp with ⟨ha, hb⟩ | ⟨ha, hb⟩
      · exact Or.inl ⟨ List.elem_iff.mp ha, hb⟩
      · exact Or.inr ⟨ List.elem_iff.mp ha, hb⟩
    · intro hh
      refine ⟨hh.1, ?_⟩
      rw [if_neg (by simp), if_neg (by simp)]
      simp only [Bool.or_eq_true, Bool.and_eq_true]
      rcases hh.2 with ⟨ha, hb⟩ | ⟨ha, hb⟩
      · exact Or.inl ⟨ List.elem_iff.mpr ha, hb⟩
      · exact Or.inr ⟨ List.elem_iff.mpr ha, hb⟩
  refine ⟨hmain, ?_⟩
  intro servers k sc
  rw [hmain servers ["stdio".data, "http".data] k sc (by simp)]
  constructor
  · intro ⟨h1, h2⟩
    refine ⟨h1, ?_⟩
    rcases h2 with ⟨_, h3⟩ | ⟨_, h3⟩
    · exact Or.inl h3
    · exact Or.inr h3
  · intro ⟨h1, h2⟩
    refine ⟨h1, ?_⟩
    rcases h2 with h3 | h3
    · exact Or.inl ⟨by decide, h3⟩
    · exact Or.inr ⟨by decide, h3⟩

/-- C7 witness. -/
theorem c7_transport_allowlist_witness :
    ("a".data, (⟨"a".data, [("command".data, TomlVal.str "x".data)]⟩ : ServerConfig))
      ∈ filterServersFn
        [("a".data, (⟨"a".data, [("command".data, TomlVal.str "x".data)]⟩ : ServerConfig))]
        ⟨[], ["stdio".data], none, none⟩ := by
  rw [c7_transport_allowlist.1
    [("a".data, (⟨"a".data, [("command".data, TomlVal.str "x".data)]⟩ : ServerConfig))]
    ["stdio".data] "a".data
    (⟨"a".data, [("command".data, TomlVal.str "x".data)]⟩ : ServerConfig)
    (by simp)]
  refine ⟨by simp, Or.inl ⟨by decide, by decide⟩⟩

/-! ## Claim C9: per-target isolation in the orchestrator -/

theorem processTarget_error {σ : Type} (cfg : EngineCfg)
    (servers : List (Str × ServerConfig)) (sections : List Section)
    (mcpOnly rulesOnly dryRun : Bool) (name : Str) (ad : Adapter σ) (fs : FS) (e : Str)
    (h : targetComp cfg servers sections mcpOnly rulesOnly dryRun name ad fs
      = Except.error e) :
    processTarget cfg servers sections mcpOnly rulesOnly dryRun name ad fs
      = ({ target_name := name, success := false, writes := [], errors := [e] }, fs) := by
  unfold processTarget
  rw [h]

theorem processTarget_ok {σ : Type} (cfg : EngineCfg)
    (servers : List (Str × ServerConfig)) (sections : List Section)
    (mcpOnly rulesOnly dryRun : Bool) (name : Str) (ad : Adapter σ) (fs : FS)
    (writes : List WriteResult) (fs2 : FS)
    (h : targetComp cfg servers sections mcpOnly rulesOnly dryRun name ad fs
      = Except.ok (writes, fs2)) :
    processTarget cfg servers sections mcpOnly rulesOnly dryRun name ad fs
      = ({ target_name := name, success := true, writes := writes, errors := [] }, fs2) := by
  unfold processTarget
  rw [h]

theorem runLoop_append {σ : Type} (cfg : EngineCfg)
    (servers : List (Str × ServerConfig)) (sections : List Section)
    (mcpOnly rulesOnly dryRun : Bool) (xs ys : List (Str × Adapter σ)) :
    ∀ fs, runLoop cfg servers sections mcpOnly rulesOnly dryRun (xs ++ ys) fs
      = ((runLoop cfg servers sections mcpOnly rulesOnly dryRun xs fs).1
          ++ (runLoop cfg servers sections mcpOnly rulesOnly dryRun ys
              (runLoop cfg servers sections mcpOnly rulesOnly dryRun xs fs).2).1,
         (runLoop cfg servers sections mcpOnly rulesOnly dryRun ys
           (runLoop cfg servers sections mcpOnly rulesOnly dryRun xs fs).2).2) := by
  induction xs with
  | nil => intro fs; simp [runLoop]
  | cons tg xs ih =>
    intro fs
    obtain ⟨n2, ad2⟩ := tg
    rcases hpt : processTarget cfg servers sections mcpOnly rulesOnly dryRun n2 ad2 fs
      with ⟨tr, fs2⟩
    simp only [List.cons_append, runLoop, hpt, List.append_eq]
    rw [ih fs2]

/-- C9: an exception in one target's generate/write is caught and recorded
as that target's failure with its message, the filesystem is untouched by
the failed target, and the remaining targets are still processed; an
unknown target-name filter fails the whole run before any target is
touched; and the run's aggregate success is the conjunction of the
per-target successes. -/
theorem c9_run_isolation :
    (∀ {σ : Type} (cfg : EngineCfg) (pre post : List (Str × Adapter σ))
        (name : Str) (ad : Adapter σ) (servers : List (Str × ServerConfig))
        (sections : List Section) (mcpOnly rulesOnly dryRun : Bool) (fs : FS) (e : Str),
      targetComp cfg servers sections mcpOnly rulesOnly dryRun name ad
          (runLoop cfg servers sections mcpOnly rulesOnly dryRun pre fs).2
        = Except.error e →
      runLoop cfg servers sections mcpOnly rulesOnly dryRun (pre ++ (name, ad) :: post) fs
        = ((runLoop cfg servers sections mcpOnly rulesOnly dryRun pre fs).1
            ++ (name,
                ({ target_name := name, success := false, writes := [],
                   errors := [e] } : TargetSyncResult))
            :: (runLoop cfg servers sections mcpOnly rulesOnly dryRun post
                (runLoop cfg servers sections mcpOnly rulesOnly dryRun pre fs).2).1,
           (runLoop cfg servers sections mcpOnly rulesOnly dryRun post
             (runLoop cfg servers sections mcpOnly rulesOnly dryRun pre fs).2).2))
    ∧ (∀ {σ : Type} (cfg : EngineCfg) (targets : List (Str × Adapter σ))
        (servers0 : List (Str × ServerConfig)) (sections0 : List Section)
        (dryRun mcpOnly rulesOnly : Bool) (t : Str) (fs : FS),
      ¬ ((targets.map (fun tg => tg.1)).contains t = true) →
      runEngine cfg targets servers0 sections0 dryRun mcpOnly rulesOnly (some t) fs
        = ({ success := false, dry_run := dryRun, target_results := [] }, fs))
    ∧ (∀ {σ : Type} (cfg : EngineCfg) (targets : List (Str × Adapter σ))
        (servers0 : List (Str × ServerConfig)) (sections0 : List Section)
        (dryRun mcpOnly rulesOnly : Bool) (fs : FS),
      (runEngine cfg targets servers0 sections0 dryRun mcpOnly rulesOnly none fs).1.success
        = ((runEngine cfg targets servers0 sections0 dryRun mcpOnly rulesOnly
            none fs).1.target_results.all (fun tr => tr.2.success))) := by
  refine ⟨?_, ?_, ?_⟩
  · intro σ cfg pre post name ad servers sections mcpOnly rulesOnly dryRun fs e herr
    rw [runLoop_append cfg servers sections mcpOnly rulesOnly dryRun pre ((name, ad) :: post) fs]
    rcases hq : runLoop cfg servers sections mcpOnly rulesOnly dryRun pre fs with ⟨rs1, fs1⟩
    rw [hq] at herr
    have hone : runLoop cfg servers sections mcpOnly rulesOnly dryRun ((name, ad) :: post) fs1
        = ((name,
            ({ target_name := name, success := false, writes := [],
               errors := [e] } : TargetSyncResult))
            :: (runLoop cfg servers sections mcpOnly rulesOnly dryRun post fs1).1,
          (runLoop cfg servers sections mcpOnly rulesOnly dryRun post fs1).2) := by
      simp only [runLoop, processTarget_error cfg servers sections mcpOnly rulesOnly dryRun
        name ad fs1 e herr]
    rw [hone]
  · intro σ cfg targets servers0 sections0 dryRun mcpOnly rulesOnly t fs hmem
    have hb : (targets.map (fun tg => tg.1)).contains t = false := by
      cases hc : (targets.map (fun tg => tg.1)).contains t
      · rfl
      · exact absurd hc hmem
    have h0 : runEngine cfg targets servers0 sections0 dryRun mcpOnly rulesOnly (some t) fs
        = (if !((targets.map (fun tg => tg.1)).contains t) then
            (({ success := false, dry_run := dryRun, target_results := [] } : SyncResult), fs)
          else runEngine.runBody cfg (targets.filter (fun tg => tg.1 == t)) servers0 sections0
            dryRun mcpOnly rulesOnly fs) := rfl
    rw [h0, hb]
    rfl
  · intro σ cfg targets servers0 sections0 dryRun mcpOnly rulesOnly fs
    have h0 : runEngine cfg targets servers0 sections0 dryRun mcpOnly rulesOnly none fs
        = runEngine.runBody cfg targets servers0 sections0 dryRun mcpOnly rulesOnly fs := rfl
    rw [h0]
    unfold runEngine.runBody
    rcases hq : runLoop cfg (if rulesOnly = true then [] else (dedupServers servers0).1)
        (if mcpOnly = true then [] else sections0) mcpOnly rulesOnly dryRun targets fs
      with ⟨trs, fs2⟩
    simp only [hq]

theorem c9_run_isolation_witness :
    (runLoop emptyCfg [] [] false false false
        ([] ++ ("a".data, raisingAdapter) :: [("b".data, okAdapter)]) ([] : FS)
      = ((runLoop emptyCfg [] [] false false false ([] : List (Str × Adapter Unit)) ([] : FS)).1
          ++ ("a".data,
              ({ target_name := "a".data, success := false, writes := [],
                 errors := ["boom".data] } : TargetSyncResult))
          :: (runLoop emptyCfg [] [] false false false [("b".data, okAdapter)]
              (runLoop emptyCfg [] [] false false false ([] : List (Str × Adapter Unit)) ([] : FS)).2).1,
         (runLoop emptyCfg [] [] false false false [("b".data, okAdapter)]
           (runLoop emptyCfg [] [] false false false ([] : List (Str × Adapter Unit)) ([] : FS)).2).2))
    ∧ runEngine emptyCfg [("a".data, raisingAdapter)] [] [] false false false
        (some "x".data) ([] : FS)
      = ({ success := false, dry_run := false, target_results := [] }, ([] : FS)) := by
  obtain ⟨h1, h2, h3⟩ := c9_run_isolation
  refine ⟨h1 emptyCfg [] [("b".data, okAdapter)] "a".data raisingAdapter [] []
      false false false ([] : FS) "boom".data rfl, ?_⟩
  refine h2 emptyCfg [("a".data, raisingAdapter)] [] [] false false false "x".data
    ([] : FS) ?_
  intro hc
  exact absurd hc (by decide)

/-! ## Claim C10: empty inputs produce no artifact writes -/

theorem lookup_map_insertFn {V : Type} (d : List (Str × V)) (k0 k : Str) (v0 : V)
    (h : k ≠ k0) :
    (d.map (fun kv => if kv.1 == k0 then (kv.1, v0) else kv)).lookup k = d.lookup k := by
  induction d with
  | nil => rfl
  | cons e rest ih =>
    obtain ⟨k1, v1⟩ := e
    cases h1 : (k1 == k0) with
    | true =>
      have hk : (k == k1) = false := by
        have he : k1 = k0 := by simpa using h1
        subst he
        simpa using h
      rw [List.map_cons, if_pos h1]
      simp only [List.lookup, hk]
      exact ih
    | false =>
      rw [List.map_cons, if_neg (by simp [h1])]
      cases hk : (k == k1) with
      | true => simp only [List.lookup, hk]
      | false =>
        simp only [List.lookup, hk]
        exact ih

theorem lookup_append_single {V : Type} (d : List (Str × V)) (k0 k : Str) (v0 : V)
    (h : k ≠ k0) :
    (d ++ [(k0, v0)]).lookup k = d.lookup k := by
  induction d with
  | nil => simp [List.lookup, show (k == k0) = false by simpa using h]
  | cons e rest ih =>
    obtain ⟨k1, v1⟩ := e
    cases hk : (k == k1) with
    | true => simp [List.lookup, hk]
    | false => simp [List.lookup, hk, ih]

theorem lookup_dictInsert_ne {V : Type} (d : List (Str × V)) (k0 k : Str) (v0 : V)
    (h : k ≠ k0) :
    (dictInsert d k0 v0).lookup k = d.lookup k := by
  unfold dictInsert
  by_cases hany : d.any (fun kv => kv.1 == k0) = true
  · rw [if_pos hany]
    exact lookup_map_insertFn d k0 k v0 h
  · rw [if_neg hany]
    exact lookup_append_single d k0 k v0 h

theorem writeTextM_path (path content : Str) (dryRun : Bool) (fs : FS) :
    (writeTextM path content dryRun fs).1.path = path := by
  cases dryRun with
  | false => rfl
  | true => rfl

theorem writeTextM_lookup_ne (path content q : Str) (dryRun : Bool) (fs : FS)
    (h : q ≠ path) :
    (writeTextM path content dryRun fs).2.lookup q = fs.lookup q := by
  cases dryRun with
  | false => exact lookup_dictInsert_ne fs path q content h
  | true => rfl

theorem targetComp_codex_empty (cfg : EngineCfg) (sections : List Section) (dryRun : Bool)
    (n : Str) (ex pr : List Str) (cp rp : Option Str) (fs : FS) :
    targetComp cfg [] sections false false dryRun n (codexAdapter ⟨ex, pr, cp, rp⟩) fs
      = (match sections, rp with
         | [], _ => Except.ok ([], fs)
         | _ :: _, none => Except.ok ([], fs)
         | _ :: _, some q =>
           Except.ok
             ([(writeTextM q (generateRules (filterSections sections cfg.exclude_sections))
                 dryRun fs).1],
              (writeTextM q (generateRules (filterSections sections cfg.exclude_sections))
                dryRun fs).2)) := by
  cases sections with
  | nil => rfl
  | cons s ss =>
    cases rp with
    | none => rfl
    | some q => rfl

theorem targetComp_codex_noSections (cfg : EngineCfg) (S : List (Str × ServerConfig))
    (dryRun : Bool) (n : Str) (ex pr : List Str) (cp : Option Str) (q : Str) (fs : FS) :
    targetComp cfg S [] false false dryRun n (codexAdapter ⟨ex, pr, cp, some q⟩) fs
      = (match S, cp with
         | [], _ => Except.ok ([], fs)
         | _ :: _, none => Except.ok ([], fs)
         | _ :: _, some p =>
           match mergeToml (fs.lookup p)
               (generateMcp (filterServers cfg.targetsCfg S n)) with
           | some content =>
             Except.ok ([(writeTextM p content dryRun fs).1],
               (writeTextM p content dryRun fs).2)
           | none => Except.error "re.error: bad escape in replacement template".data) := by
  cases S with
  | nil => rfl
  | cons sv rest =>
    cases cp with
    | none => rfl
    | some p => rfl

theorem runEngine_single_ok {σ : Type} (cfg : EngineCfg) (n : Str) (ad : Adapter σ)
    (servers0 : List (Str × ServerConfig)) (sections0 : List Section)
    (dryRun : Bool) (fs : FS) (ws : List WriteResult) (fs2 : FS)
    (h : targetComp cfg (dedupServers servers0).1 sections0 false false dryRun n ad fs
      = Except.ok (ws, fs2)) :
    runEngine cfg [(n, ad)] servers0 sections0 dryRun false false none fs
      = ({ success := true, dry_run := dryRun,
           target_results := [(n, { target_name := n, success := true, writes := ws, errors := [] })] },
         fs2) := by
  have h0 : runEngine cfg [(n, ad)] servers0 sections0 dryRun false false none fs
      = runEngine.runBody cfg [(n, ad)] servers0 sections0 dryRun false false fs := rfl
  have hB : runEngine.runBody cfg [(n, ad)] servers0 sections0 dryRun false false fs
      = ({ success := (runLoop cfg (dedupServers servers0).1 sections0 false false dryRun
              [(n, ad)] fs).1.all (fun tr => tr.2.success),
           dry_run := dryRun,
           target_results := (runLoop cfg (dedupServers servers0).1 sections0 false false
              dryRun [(n, ad)] fs).1 },
         (runLoop cfg (dedupServers servers0).1 sections0 false false dryRun
           [(n, ad)] fs).2) := rfl
  have hL : runLoop cfg (dedupServers servers0).1 sections0 false false dryRun
      [(n, ad)] fs
      = ([(n, (processTarget cfg (dedupServers servers0).1 sections0 false false dryRun
            n ad fs).1)],
         (processTarget cfg (dedupServers servers0).1 sections0 false false dryRun
           n ad fs).2) := rfl
  have hP := processTarget_ok cfg (dedupServers servers0).1 sections0 false false dryRun
    n ad fs ws fs2 h
  rw [hP] at hL
  rw [h0, hB, hL]
  rfl

theorem runEngine_single_err {σ : Type} (cfg : EngineCfg) (n : Str) (ad : Adapter σ)
    (servers0 : List (Str × ServerConfig)) (sections0 : List Section)
    (dryRun : Bool) (fs : FS) (e : Str)
    (h : targetComp cfg (dedupServers servers0).1 sections0 false false dryRun n ad fs
      = Except.error e) :
    runEngine cfg [(n, ad)] servers0 sections0 dryRun false false none fs
      = ({ success := false, dry_run := dryRun,
           target_results := [(n, { target_name := n, success := false, writes := [], errors := [e] })] },
         fs) := by
  have h0 : runEngine cfg [(n, ad)] servers0 sections0 dryRun false false none fs
      = runEngine.runBody cfg [(n, ad)] servers0 sections0 dryRun false false fs := rfl
  have hB : runEngine.runBody cfg [(n, ad)] servers0 sections0 dryRun false false fs
      = ({ success := (runLoop cfg (dedupServers servers0).1 sections0 false false dryRun
              [(n, ad)] fs).1.all (fun tr => tr.2.success),
           dry_run := dryRun,
           target_results := (runLoop cfg (dedupServers servers0).1 sections0 false false
              dryRun [(n, ad)] fs).1 },
         (runLoop cfg (dedupServers servers0).1 sections0 false false dryRun
           [(n, ad)] fs).2) := rfl
  have hL : runLoop cfg (dedupServers servers0).1 sections0 false false dryRun
      [(n, ad)] fs
      = ([(n, (processTarget cfg (dedupServers servers0).1 sections0 false false dryRun
            n ad fs).1)],
         (processTarget cfg (dedupServers servers0).1 sections0 false false dryRun
           n ad fs).2) := rfl
  have hP := processTarget_error cfg (dedupServers servers0).1 sections0 false false dryRun
    n ad fs e h
  rw [hP] at hL
  rw [h0, hB, hL]
  rfl

/-- C10: with an empty deduplicated registry the run produces no MCP write
outcome for a codex target and leaves the file at the config path untouched;
with an empty section list it produces no rules write outcome and leaves the
file at the rules path untouched (in each part the other artifact path is
distinct). -/
theorem c10_empty_inputs_frame :
    (∀ (cfg : EngineCfg) (n : Str) (ex pr : List Str) (p : Str) (rp : Option Str)
        (servers0 : List (Str × ServerConfig)) (sections0 : List Section)
        (dryRun : Bool) (fs : FS),
      (dedupServers servers0).1 = [] → rp ≠ some p →
      (∀ nm tr, (nm, tr) ∈ (runEngine cfg [(n, codexAdapter ⟨ex, pr, some p, rp⟩)]
          servers0 sections0 dryRun false false none fs).1.target_results →
        ∀ wr ∈ tr.writes, wr.path ≠ p)
      ∧ (runEngine cfg [(n, codexAdapter ⟨ex, pr, some p, rp⟩)]
          servers0 sections0 dryRun false false none fs).2.lookup p = fs.lookup p)
    ∧ (∀ (cfg : EngineCfg) (n : Str) (ex pr : List Str) (cp : Option Str) (q : Str)
        (servers0 : List (Str × ServerConfig)) (dryRun : Bool) (fs : FS),
      cp ≠ some q →
      (∀ nm tr, (nm, tr) ∈ (runEngine cfg [(n, codexAdapter ⟨ex, pr, cp, some q⟩)]
          servers0 [] dryRun false false none fs).1.target_results →
        ∀ wr ∈ tr.writes, wr.path ≠ q)
      ∧ (runEngine cfg [(n, codexAdapter ⟨ex, pr, cp, some q⟩)]
          servers0 [] dryRun false false none fs).2.lookup q = fs.lookup q) := by
  constructor
  · intro cfg n ex pr p rp servers0 sections0 dryRun fs hd hrp
    cases sections0 with
    | nil =>
      have hT2 : targetComp cfg (dedupServers servers0).1 [] false false dryRun n
          (codexAdapter ⟨ex, pr, some p, rp⟩) fs = Except.ok ([], fs) := by
        rw [hd]
        exact (targetComp_codex_empty cfg [] dryRun n ex pr (some p) rp fs).trans rfl
      have hE := runEngine_single_ok cfg n (codexAdapter ⟨ex, pr, some p, rp⟩)
        servers0 [] dryRun fs [] fs hT2
      rw [hE]
      constructor
      · intro nm tr hmem wr hwr
        simp only [List.mem_singleton, Prod.mk.injEq] at hmem
        obtain ⟨h1', h2'⟩ := hmem
        subst h2'
        exact absurd hwr (List.not_mem_nil wr)
      · rfl
    | cons s ss =>
      cases rp with
      | none =>
        have hT2 : targetComp cfg (dedupServers servers0).1 (s :: ss) false false dryRun n
            (codexAdapter ⟨ex, pr, some p, none⟩) fs = Except.ok ([], fs) := by
          rw [hd]
          exact (targetComp_codex_empty cfg (s :: ss) dryRun n ex pr (some p) none fs).trans
            rfl
        have hE := runEngine_single_ok cfg n (codexAdapter ⟨ex, pr, some p, none⟩)
          servers0 (s :: ss) dryRun fs [] fs hT2
        rw [hE]
        constructor
        · intro nm tr hmem wr hwr
          simp only [List.mem_singleton, Prod.mk.injEq] at hmem
          obtain ⟨h1', h2'⟩ := hmem
          subst h2'
          exact absurd hwr (List.not_mem_nil wr)
        · rfl
      | some q =>
        have hne : p ≠ q := by
          intro h
          exact hrp (by rw [h])
        have hT2 : targetComp cfg (dedupServers servers0).1 (s :: ss) false false dryRun n
            (codexAdapter ⟨ex, pr, some p, some q⟩) fs
            = Except.ok
              ([(writeTextM q (generateRules (filterSections (s :: ss)
                  cfg.exclude_sections)) dryRun fs).1],
               (writeTextM q (generateRules (filterSections (s :: ss)
                 cfg.exclude_sections)) dryRun fs).2) := by
          rw [hd]
          exact (targetComp_codex_empty cfg (s :: ss) dryRun n ex pr (some p) (some q)
            fs).trans rfl
        have hE := runEngine_single_ok cfg n (codexAdapter ⟨ex, pr, some p, some q⟩)
          servers0 (s :: ss) dryRun fs _ _ hT2
        rw [hE]
        constructor
        · intro nm tr hmem wr hwr
          simp only [List.mem_singleton, Prod.mk.injEq] at hmem
          obtain ⟨h1', h2'⟩ := hmem
          subst h2'
          simp only [List.mem_singleton] at hwr
          subst hwr
          rw [writeTextM_path]
          exact fun hc => hne hc.symm
        · exact writeTextM_lookup_ne q
            (generateRules (filterSections (s :: ss) cfg.exclude_sections)) p dryRun fs hne
  · intro cfg n ex pr cp q servers0 dryRun fs hcp
    cases hS : (dedupServers servers0).1 with
    | nil =>
      have hT2 : targetComp cfg (dedupServers servers0).1 [] false false dryRun n
          (codexAdapter ⟨ex, pr, cp, some q⟩) fs = Except.ok ([], fs) := by
        rw [hS]
        exact (targetComp_codex_noSections cfg [] dryRun n ex pr cp q fs).trans rfl
      have hE := runEngine_single_ok cfg n (codexAdapter ⟨ex, pr, cp, some q⟩)
        servers0 [] dryRun fs [] fs hT2
      rw [hE]
      constructor
      · intro nm tr hmem wr hwr
        simp only [List.mem_singleton, Prod.mk.injEq] at hmem
        obtain ⟨h1', h2'⟩ := hmem
        subst h2'
        exact absurd hwr (List.not_mem_nil wr)
      · rfl
    | cons sv rest =>
      cases cp with
      | none =>
        have hT2 : targetComp cfg (dedupServers servers0).1 [] false false dryRun n
            (codexAdapter ⟨ex, pr, none, some q⟩) fs = Except.ok ([], fs) := by
          rw [hS]
          exact (targetComp_codex_noSections cfg (sv :: rest) dryRun n ex pr none q
            fs).trans rfl
        have hE := runEngine_single_ok cfg n (codexAdapter ⟨ex, pr, none, some q⟩)
          servers0 [] dryRun fs [] fs hT2
        rw [hE]
        constructor
        · intro nm tr hmem wr hwr
          simp only [List.mem_singleton, Prod.mk.injEq] at hmem
          obtain ⟨h1', h2'⟩ := hmem
          subst h2'
          exact absurd hwr (List.not_mem_nil wr)
        · rfl
      | some p =>
        have hne : p ≠ q := by
          intro h
          exact hcp (by rw [h])
        cases hm : mergeToml (fs.lookup p)
            (generateMcp (filterServers cfg.targetsCfg (sv :: rest) n)) with
        | none =>
          have hT2 : targetComp cfg (dedupServers servers0).1 [] false false dryRun n
              (codexAdapter ⟨ex, pr, some p, some q⟩) fs
              = Except.error "re.error: bad escape in replacement template".data := by
            rw [hS]
            refine (targetComp_codex_noSections cfg (sv :: rest) dryRun n ex pr (some p) q
              fs).trans ?_
            show (match mergeToml (fs.lookup p)
                (generateMcp (filterServers cfg.targetsCfg (sv :: rest) n)) with
              | some content => Except.ok ([(writeTextM p content dryRun fs).1],
                  (writeTextM p content dryRun fs).2)
              | none =>
                Except.error "re.error: bad escape in replacement template".data)
              = Except.error "re.error: bad escape in replacement template".data
            simp only [hm]
          have hE := runEngine_single_err cfg n (codexAdapter ⟨ex, pr, some p, some q⟩)
            servers0 [] dryRun fs _ hT2
          rw [hE]
          constructor
          · intro nm tr hmem wr hwr
            simp only [List.mem_singleton, Prod.mk.injEq] at hmem
            obtain ⟨h1', h2'⟩ := hmem
            subst h2'
            exact absurd hwr (List.not_mem_nil wr)
          · rfl
        | some content =>
          have hT2 : targetComp cfg (dedupServers servers0).1 [] false false dryRun n
              (codexAdapter ⟨ex, pr, some p, some q⟩) fs
              = Except.ok ([(writeTextM p content dryRun fs).1],
                  (writeTextM p content dryRun fs).2) := by
            rw [hS]
            refine (targetComp_codex_noSections cfg (sv :: rest) dryRun n ex pr (some p) q
              fs).trans ?_
            show (match mergeToml (fs.lookup p)
                (generateMcp (filterServers cfg.targetsCfg (sv :: rest) n)) with
              | some c2 => Except.ok ([(writeTextM p c2 dryRun fs).1],
                  (writeTextM p c2 dryRun fs).2)
              | none =>
                Except.error "re.error: bad escape in replacement template".data)
              = Except.ok ([(writeTextM p content dryRun fs).1],
                  (writeTextM p content dryRun fs).2)
            simp only [hm]
          have hE := runEngine_single_ok cfg n (codexAdapter ⟨ex, pr, some p, some q⟩)
            servers0 [] dryRun fs _ _ hT2
          rw [hE]
          constructor
          · intro nm tr hmem wr hwr
            simp only [List.mem_singleton, Prod.mk.injEq] at hmem
            obtain ⟨h1', h2'⟩ := hmem
            subst h2'
            simp only [List.mem_singleton] at hwr
            subst hwr
            rw [writeTextM_path]
            exact hne
          · exact writeTextM_lookup_ne p content q dryRun fs (fun hc => hne hc.symm)

theorem c10_empty_inputs_frame_witness :
    ((runEngine emptyCfg
        [("codex".data, codexAdapter ⟨[], [], some "config.toml".data,
          some "AGENTS.md".data⟩)] [] [] false false false none ([] : FS)).2.lookup
        "config.toml".data
      = ([] : FS).lookup "config.toml".data)
    ∧ ((runEngine emptyCfg
        [("codex".data, codexAdapter ⟨[], [], some "config.toml".data,
          some "AGENTS.md".data⟩)] [] [] false false false none ([] : FS)).2.lookup
        "AGENTS.md".data
      = ([] : FS).lookup "AGENTS.md".data) := by
  obtain ⟨h1, h2⟩ := c10_empty_inputs_frame
  exact ⟨(h1 emptyCfg "codex".data [] [] "config.toml".data (some "AGENTS.md".data)
      [] [] false ([] : FS) rfl (by decide)).2,
    (h2 emptyCfg "codex".data [] [] (some "config.toml".data) "AGENTS.md".data
      [] false ([] : FS) (by decide)).2⟩

theorem c5_consistency_finding_witness :
    (checkServerConsistency
        [("a".data, ⟨"a".data, [("command".data, TomlVal.int 1)]⟩)]
        ([] : List Str) "codex".data [] false).severity = "error".data := by
  exact (c5_consistency_finding.1
    [("a".data, ⟨"a".data, [("command".data, TomlVal.int 1)]⟩)]
    ([] : List Str) "codex".data [] false).2.1 (by decide)

end AgentSync
